import Mathlib

/-!
Verification of the QuantumMesh quantum state-vector simulation engine.

Shallow embedding of the Rust sources `src/gpu_ops.rs` and `src/qsim.rs`.
The `f64` scalars are modelled by an arbitrary field `K`, instantiated at `ℝ`
in the theorems (exact real arithmetic, per the spec's "exactly over the
reals" reading of floating-point tolerance).  A Rust `Vec` index that is out
of bounds panics; this is modelled by returning `none`.  The `u64`/`usize`
machine integers are modelled as `Nat` with explicit reduction modulo `2^64`
where the source arithmetic can overflow (Rust release-mode wrapping).
-/

set_option autoImplicit false

namespace QuantumMesh

/-- `Complex` (src/gpu_ops.rs): complex number representation with `re`/`im`
components.  The `f64` fields are modelled by a field `K`. -/
structure Complex (K : Type) where
  re : K
  im : K

variable {K : Type} [Field K]

/-- `Complex::magnitude_squared` (src/gpu_ops.rs): `re*re + im*im`. -/
def Complex.magnitude_squared (c : Complex K) : K :=
  c.re * c.re + c.im * c.im

/-- `Complex::conjugate` (src/gpu_ops.rs). -/
def Complex.conjugate (c : Complex K) : Complex K :=
  ⟨c.re, -c.im⟩

/-- The `f64` constants and unary operations the kernels use: `f64::cos`,
`f64::sin`, the Hadamard factor `1.0 / 2.0_f64.sqrt()`, and
`std::f64::consts::PI`.  Passed as a parameter so that the kernel
definitions stay computable over any `K`; theorems instantiate `K := ℝ`
with the exact real operations (`realFloatOps`). -/
structure FloatOps (K : Type) where
  cos : K → K
  sin : K → K
  sqrt2inv : K
  pi : K

/-- `GpuStateVector` (src/gpu_ops.rs): `size` and the amplitude vector
`data`.  The `device` metadata field (a constant `GpuDevice` record that no
kernel reads) is omitted. -/
structure GpuStateVector (K : Type) where
  size : Nat
  data : List (Complex K)

/-- `GpuStateVector::new` (src/gpu_ops.rs): `size = 1 << num_qubits`,
`data = vec![0; size]` with `data[0] = 1` (state `|0...0>`). -/
def GpuStateVector.new (num_qubits : Nat) : GpuStateVector K :=
  let size := 1 <<< num_qubits
  ⟨size, (List.replicate size ⟨0, 0⟩).set 0 ⟨1, 0⟩⟩

/-- One iteration of the shared loop shape of the paired gate kernels in
src/gpu_ops.rs: `for i in 0..size { if guard(i) { read data[i], data[i|m],
write both via u } }`.  Both reads happen before either write, exactly as in
the source.  An out-of-bounds read or write panics in Rust; modelled by
`none`. -/
def pairUpdate (guard : Nat → Bool) (m : Nat)
    (u : Complex K → Complex K → Complex K × Complex K)
    (d : List (Complex K)) (i : Nat) : Option (List (Complex K)) :=
  if guard i then
    match d[i]?, d[(i ||| m)]? with
    | some a, some b => some ((d.set i (u a b).1).set (i ||| m) (u a b).2)
    | _, _ => none
  else
    some d

/-- The full sequential loop of a paired kernel over `i in 0..size`. -/
def pairLoop (guard : Nat → Bool) (m : Nat)
    (u : Complex K → Complex K → Complex K × Complex K)
    (size : Nat) (d : List (Complex K)) : Option (List (Complex K)) :=
  (List.range size).foldlM (pairUpdate guard m u) d

/-- One iteration of the shared loop shape of the single-entry kernels
(Pauli-Z, phase) in src/gpu_ops.rs: `if guard(i) { data[i] = u(data[i]) }`. -/
def pointUpdate (guard : Nat → Bool) (u : Complex K → Complex K)
    (d : List (Complex K)) (i : Nat) : Option (List (Complex K)) :=
  if guard i then
    match d[i]? with
    | some a => some (d.set i (u a))
    | none => none
  else
    some d

/-- The full sequential loop of a single-entry kernel over `i in 0..size`. -/
def pointLoop (guard : Nat → Bool) (u : Complex K → Complex K)
    (size : Nat) (d : List (Complex K)) : Option (List (Complex K)) :=
  (List.range size).foldlM (pointUpdate guard u) d

/-- `GpuStateVector::apply_hadamard_gpu` (src/gpu_ops.rs): for each `i` with
`i & stride == 0`, `stride = 1 << qubit`, `factor = 1/sqrt 2`:
`new[i] = factor*(a+b)`, `new[i|stride] = factor*(a-b)` componentwise. -/
def GpuStateVector.apply_hadamard_gpu (ops : FloatOps K) (s : GpuStateVector K)
    (qubit : Nat) : Option (GpuStateVector K) :=
  let stride := 1 <<< qubit
  let factor := ops.sqrt2inv
  (pairLoop (fun i => i &&& stride == 0) stride
    (fun a b =>
      (⟨factor * (a.re + b.re), factor * (a.im + b.im)⟩,
       ⟨factor * (a.re - b.re), factor * (a.im - b.im)⟩))
    s.size s.data).map (fun d => ⟨s.size, d⟩)

/-- `GpuStateVector::apply_cnot_gpu` (src/gpu_ops.rs): for each `i` with
control bit set and target bit clear, swap `data[i]` and
`data[i | target_mask]`. -/
def GpuStateVector.apply_cnot_gpu (s : GpuStateVector K)
    (control target : Nat) : Option (GpuStateVector K) :=
  let control_mask := 1 <<< control
  let target_mask := 1 <<< target
  (pairLoop (fun i => (i &&& control_mask != 0) && (i &&& target_mask == 0))
    target_mask (fun a b => (b, a)) s.size s.data).map (fun d => ⟨s.size, d⟩)

/-- `GpuStateVector::apply_phase_gpu` (src/gpu_ops.rs): rotate every
amplitude whose index has bit `qubit` set by the angle `phase`. -/
def GpuStateVector.apply_phase_gpu (ops : FloatOps K) (s : GpuStateVector K)
    (qubit : Nat) (phase : K) : Option (GpuStateVector K) :=
  let mask := 1 <<< qubit
  let cos_phase := ops.cos phase
  let sin_phase := ops.sin phase
  (pointLoop (fun i => i &&& mask != 0)
    (fun c => ⟨c.re * cos_phase - c.im * sin_phase,
               c.re * sin_phase + c.im * cos_phase⟩)
    s.size s.data).map (fun d => ⟨s.size, d⟩)

/-- `GpuStateVector::apply_x_gpu` (src/gpu_ops.rs): swap each pair
`(i, i|mask)` with bit `qubit` of `i` clear. -/
def GpuStateVector.apply_x_gpu (s : GpuStateVector K) (qubit : Nat) :
    Option (GpuStateVector K) :=
  let mask := 1 <<< qubit
  (pairLoop (fun i => i &&& mask == 0) mask (fun a b => (b, a))
    s.size s.data).map (fun d => ⟨s.size, d⟩)

/-- `GpuStateVector::apply_y_gpu` (src/gpu_ops.rs):
`new[i] = (b.im, -b.re)`, `new[i|mask] = (-a.im, a.re)`. -/
def GpuStateVector.apply_y_gpu (s : GpuStateVector K) (qubit : Nat) :
    Option (GpuStateVector K) :=
  let mask := 1 <<< qubit
  (pairLoop (fun i => i &&& mask == 0) mask
    (fun a b => (⟨b.im, -b.re⟩, ⟨-a.im, a.re⟩))
    s.size s.data).map (fun d => ⟨s.size, d⟩)

/-- `GpuStateVector::apply_z_gpu` (src/gpu_ops.rs): negate both components
of every amplitude whose index has bit `qubit` set. -/
def GpuStateVector.apply_z_gpu (s : GpuStateVector K) (qubit : Nat) :
    Option (GpuStateVector K) :=
  let mask := 1 <<< qubit
  (pointLoop (fun i => i &&& mask != 0) (fun c => ⟨-c.re, -c.im⟩)
    s.size s.data).map (fun d => ⟨s.size, d⟩)

/-- `RotationAxis` (src/gpu_ops.rs). -/
inductive RotationAxis where
  | X
  | Y
  | Z

/-- `GpuStateVector::apply_rx_gpu` (src/gpu_ops.rs), coefficients
`cos(angle/2)`, `sin(angle/2)`. -/
def GpuStateVector.apply_rx_gpu (ops : FloatOps K) (s : GpuStateVector K)
    (qubit : Nat) (angle : K) : Option (GpuStateVector K) :=
  let mask := 1 <<< qubit
  let cos_half := ops.cos (angle / 2)
  let sin_half := ops.sin (angle / 2)
  (pairLoop (fun i => i &&& mask == 0) mask
    (fun a b =>
      (⟨cos_half * a.re + sin_half * b.im, cos_half * a.im - sin_half * b.re⟩,
       ⟨cos_half * b.re + sin_half * a.im, cos_half * b.im - sin_half * a.re⟩))
    s.size s.data).map (fun d => ⟨s.size, d⟩)

/-- `GpuStateVector::apply_ry_gpu` (src/gpu_ops.rs). -/
def GpuStateVector.apply_ry_gpu (ops : FloatOps K) (s : GpuStateVector K)
    (qubit : Nat) (angle : K) : Option (GpuStateVector K) :=
  let mask := 1 <<< qubit
  let cos_half := ops.cos (angle / 2)
  let sin_half := ops.sin (angle / 2)
  (pairLoop (fun i => i &&& mask == 0) mask
    (fun a b =>
      (⟨cos_half * a.re - sin_half * b.re, cos_half * a.im - sin_half * b.im⟩,
       ⟨sin_half * a.re + cos_half * b.re, sin_half * a.im + cos_half * b.im⟩))
    s.size s.data).map (fun d => ⟨s.size, d⟩)

/-- `GpuStateVector::apply_rz_gpu` (src/gpu_ops.rs): delegates to the phase
kernel with the same angle. -/
def GpuStateVector.apply_rz_gpu (ops : FloatOps K) (s : GpuStateVector K)
    (qubit : Nat) (angle : K) : Option (GpuStateVector K) :=
  s.apply_phase_gpu ops qubit angle

/-- `GpuStateVector::apply_rotation_gpu` (src/gpu_ops.rs). -/
def GpuStateVector.apply_rotation_gpu (ops : FloatOps K) (s : GpuStateVector K)
    (qubit : Nat) (axis : RotationAxis) (angle : K) :
    Option (GpuStateVector K) :=
  match axis with
  | RotationAxis.X => s.apply_rx_gpu ops qubit angle
  | RotationAxis.Y => s.apply_ry_gpu ops qubit angle
  | RotationAxis.Z => s.apply_rz_gpu ops qubit angle

/-- `GpuStateVector::measure_all_gpu` (src/gpu_ops.rs): the list of squared
magnitudes of all amplitudes. -/
def GpuStateVector.measure_all_gpu (s : GpuStateVector K) : List K :=
  s.data.map Complex.magnitude_squared

/-- `GpuStateVector::get_data` (src/gpu_ops.rs). -/
def GpuStateVector.get_data (s : GpuStateVector K) : List (Complex K) :=
  s.data

/-- `QuantumGate` (src/qsim.rs): the tagged gate descriptor; angles have the
scalar type `K`. -/
inductive QuantumGate (K : Type) where
  | Hadamard (qubit : Nat)
  | PauliX (qubit : Nat)
  | PauliY (qubit : Nat)
  | PauliZ (qubit : Nat)
  | Phase (qubit : Nat) (angle : K)
  | CNOT (control : Nat) (target : Nat)
  | SWAP (qubit1 : Nat) (qubit2 : Nat)
  | Toffoli (control1 : Nat) (control2 : Nat) (target : Nat)
  | RotationX (qubit : Nat) (angle : K)
  | RotationY (qubit : Nat) (angle : K)
  | RotationZ (qubit : Nat) (angle : K)
  | Measurement (qubit : Nat)

/-- `QuantumCircuit` (src/qsim.rs). -/
structure QuantumCircuit (K : Type) where
  num_qubits : Nat
  gates : List (QuantumGate K)

/-- `QuantumSimulator` (src/qsim.rs). -/
structure QuantumSimulator (K : Type) where
  num_qubits : Nat
  state : GpuStateVector K

/-- `QuantumSimulator::new` (src/qsim.rs). -/
def QuantumSimulator.new (num_qubits : Nat) : QuantumSimulator K :=
  ⟨num_qubits, GpuStateVector.new num_qubits⟩

/-- `QuantumSimulator::apply_hadamard` (src/qsim.rs). -/
def QuantumSimulator.apply_hadamard (ops : FloatOps K)
    (sim : QuantumSimulator K) (qubit : Nat) : Option (QuantumSimulator K) :=
  (sim.state.apply_hadamard_gpu ops qubit).map (fun st => { sim with state := st })

/-- `QuantumSimulator::apply_x` (src/qsim.rs). -/
def QuantumSimulator.apply_x (sim : QuantumSimulator K) (qubit : Nat) :
    Option (QuantumSimulator K) :=
  (sim.state.apply_x_gpu qubit).map (fun st => { sim with state := st })

/-- `QuantumSimulator::apply_y` (src/qsim.rs). -/
def QuantumSimulator.apply_y (sim : QuantumSimulator K) (qubit : Nat) :
    Option (QuantumSimulator K) :=
  (sim.state.apply_y_gpu qubit).map (fun st => { sim with state := st })

/-- `QuantumSimulator::apply_z` (src/qsim.rs). -/
def QuantumSimulator.apply_z (sim : QuantumSimulator K) (qubit : Nat) :
    Option (QuantumSimulator K) :=
  (sim.state.apply_z_gpu qubit).map (fun st => { sim with state := st })

/-- `QuantumSimulator::apply_phase` (src/qsim.rs). -/
def QuantumSimulator.apply_phase (ops : FloatOps K) (sim : QuantumSimulator K)
    (qubit : Nat) (angle : K) : Option (QuantumSimulator K) :=
  (sim.state.apply_phase_gpu ops qubit angle).map (fun st => { sim with state := st })

/-- `QuantumSimulator::apply_cnot` (src/qsim.rs). -/
def QuantumSimulator.apply_cnot (sim : QuantumSimulator K)
    (control target : Nat) : Option (QuantumSimulator K) :=
  (sim.state.apply_cnot_gpu control target).map (fun st => { sim with state := st })

/-- `QuantumSimulator::apply_swap` (src/qsim.rs): three CNOTs. -/
def QuantumSimulator.apply_swap (sim : QuantumSimulator K)
    (qubit1 qubit2 : Nat) : Option (QuantumSimulator K) := do
  let s1 ← sim.apply_cnot qubit1 qubit2
  let s2 ← s1.apply_cnot qubit2 qubit1
  s2.apply_cnot qubit1 qubit2

/-- `QuantumSimulator::apply_rx` (src/qsim.rs). -/
def QuantumSimulator.apply_rx (ops : FloatOps K) (sim : QuantumSimulator K)
    (qubit : Nat) (angle : K) : Option (QuantumSimulator K) :=
  (sim.state.apply_rotation_gpu ops qubit RotationAxis.X angle).map
    (fun st => { sim with state := st })

/-- `QuantumSimulator::apply_ry` (src/qsim.rs). -/
def QuantumSimulator.apply_ry (ops : FloatOps K) (sim : QuantumSimulator K)
    (qubit : Nat) (angle : K) : Option (QuantumSimulator K) :=
  (sim.state.apply_rotation_gpu ops qubit RotationAxis.Y angle).map
    (fun st => { sim with state := st })

/-- `QuantumSimulator::apply_rz` (src/qsim.rs). -/
def QuantumSimulator.apply_rz (ops : FloatOps K) (sim : QuantumSimulator K)
    (qubit : Nat) (angle : K) : Option (QuantumSimulator K) :=
  (sim.state.apply_rotation_gpu ops qubit RotationAxis.Z angle).map
    (fun st => { sim with state := st })

/-- `QuantumSimulator::apply_toffoli` (src/qsim.rs): the simplified
RZ(pi/4)-based decomposition used by the source. -/
def QuantumSimulator.apply_toffoli (ops : FloatOps K) (sim : QuantumSimulator K)
    (control1 control2 target : Nat) : Option (QuantumSimulator K) := do
  let s1 ← sim.apply_hadamard ops target
  let s2 ← s1.apply_cnot control2 target
  let s3 ← s2.apply_rz ops target (-(ops.pi / 4))
  let s4 ← s3.apply_cnot control1 target
  let s5 ← s4.apply_rz ops target (ops.pi / 4)
  let s6 ← s5.apply_cnot control2 target
  let s7 ← s6.apply_rz ops target (-(ops.pi / 4))
  let s8 ← s7.apply_cnot control1 target
  let s9 ← s8.apply_rz ops target (ops.pi / 4)
  s9.apply_hadamard ops target

/-- `QuantumSimulator::apply_gate` (src/qsim.rs): dispatch on the gate tag;
`Measurement` is a no-op ("handled separately"). -/
def QuantumSimulator.apply_gate (ops : FloatOps K) (sim : QuantumSimulator K)
    (gate : QuantumGate K) : Option (QuantumSimulator K) :=
  match gate with
  | QuantumGate.Hadamard qubit => sim.apply_hadamard ops qubit
  | QuantumGate.PauliX qubit => sim.apply_x qubit
  | QuantumGate.PauliY qubit => sim.apply_y qubit
  | QuantumGate.PauliZ qubit => sim.apply_z qubit
  | QuantumGate.Phase qubit angle => sim.apply_phase ops qubit angle
  | QuantumGate.CNOT control target => sim.apply_cnot control target
  | QuantumGate.SWAP qubit1 qubit2 => sim.apply_swap qubit1 qubit2
  | QuantumGate.Toffoli control1 control2 target =>
      sim.apply_toffoli ops control1 control2 target
  | QuantumGate.RotationX qubit angle => sim.apply_rx ops qubit angle
  | QuantumGate.RotationY qubit angle => sim.apply_ry ops qubit angle
  | QuantumGate.RotationZ qubit angle => sim.apply_rz ops qubit angle
  | QuantumGate.Measurement _ => some sim

/-- Applying a list of gates in order (the `for gate in circuit.gates` loop
of `simulate_circuit` / `run_benchmark` in src/main.rs). -/
def applyGates (ops : FloatOps K) (gates : List (QuantumGate K))
    (sim : QuantumSimulator K) : Option (QuantumSimulator K) :=
  gates.foldlM (fun s g => s.apply_gate ops g) sim

/-- `QuantumSimulator::measure_all` (src/qsim.rs). -/
def QuantumSimulator.measure_all (sim : QuantumSimulator K) : List K :=
  sim.state.measure_all_gpu

/-- `QuantumSimulator::measure_qubit` (src/qsim.rs): sum of the
probabilities at indices whose bit `qubit` is set; `mask = 1 << qubit`. -/
def QuantumSimulator.measure_qubit (sim : QuantumSimulator K) (qubit : Nat) : K :=
  let probabilities := sim.measure_all
  let mask := 1 <<< qubit
  probabilities.enum.foldl
    (fun prob ip => if ip.1 &&& mask != 0 then prob + ip.2 else prob) 0

/-- The lookahead test of `optimize` (src/qsim.rs): the current gate at
position `i` and `gates[i+1]` are both Hadamard on the same qubit, or both
Pauli-X on the same qubit (the `i + 1 < len` bound check is absorbed by the
optional lookup). -/
def cancelsNext {A : Type} (gates : List (QuantumGate A)) (i : Nat)
    (gate : QuantumGate A) : Bool :=
  match gate with
  | QuantumGate.Hadamard qubit =>
    match gates[i+1]? with
    | some (QuantumGate.Hadamard next_qubit) => qubit == next_qubit
    | _ => false
  | QuantumGate.PauliX qubit =>
    match gates[i+1]? with
    | some (QuantumGate.PauliX next_qubit) => qubit == next_qubit
    | _ => false
  | _ => false

/-- The loop body of `optimize` (src/qsim.rs): the state is the `skip_next`
flag together with the `optimized_gates` accumulator; a skipped iteration
clears the flag and `continue`s, a cancelling lookahead sets the flag and
drops the current gate, otherwise the current gate is pushed. -/
def optimizeStep {A : Type} (gates : List (QuantumGate A))
    (st : Bool × List (QuantumGate A)) (ig : Nat × QuantumGate A) :
    Bool × List (QuantumGate A) :=
  if st.1 then (false, st.2)
  else if cancelsNext gates ig.1 ig.2 then (true, st.2)
  else (false, st.2 ++ [ig.2])

/-- `optimize` (src/qsim.rs): single indexed pass (`enumerate`) with a
`skip_next` flag. -/
def optimize {A : Type} (circuit : QuantumCircuit A) : QuantumCircuit A :=
  ⟨circuit.num_qubits,
   (circuit.gates.enum.foldl (optimizeStep circuit.gates) (false, [])).2⟩

/-- `create_bell_state` (src/qsim.rs). -/
def create_bell_state : QuantumCircuit K :=
  ⟨2, [QuantumGate.Hadamard 0, QuantumGate.CNOT 0 1]⟩

/-- `create_ghz_state` (src/qsim.rs). -/
def create_ghz_state (num_qubits : Nat) : QuantumCircuit K :=
  ⟨num_qubits,
   QuantumGate.Hadamard 0 ::
     ((List.range num_qubits).drop 1).map (fun i => QuantumGate.CNOT 0 i)⟩

/-- `create_qft_circuit` (src/qsim.rs): for `j` from `num_qubits-1` down to
`0`: Hadamard on `j`, then for `k` from `j-1` down to `0`:
`Phase(j, pi / 2^(j-k))`. -/
def create_qft_circuit (ops : FloatOps K) (num_qubits : Nat) : QuantumCircuit K :=
  ⟨num_qubits,
   (List.range num_qubits).reverse.flatMap (fun j =>
     QuantumGate.Hadamard j ::
       (List.range j).reverse.map (fun k =>
         QuantumGate.Phase j (ops.pi / 2 ^ (j - k))))⟩

/-- The `u64`/`usize` modulus: Rust release-mode arithmetic wraps at
`2^64`. -/
def u64Mod : Nat := 2 ^ 64

/-- `GpuMemoryPool` (src/gpu_ops.rs). -/
structure GpuMemoryPool where
  total_memory : Nat
  used_memory : Nat

/-- `GpuMemoryPool::new` (src/gpu_ops.rs). -/
def GpuMemoryPool.new (total_memory : Nat) : GpuMemoryPool :=
  ⟨total_memory, 0⟩

/-- `GpuMemoryPool::allocate` (src/gpu_ops.rs): compares
`used_memory + size` (a `u64` addition, hence reduced mod `2^64`) with
`total_memory`; on failure reports the requested size and
`total_memory - used_memory` (the numeric payload of the formatted error
string) and leaves the pool untouched; on success adds `size` to
`used_memory` (again `u64` addition).  The mutable receiver is modelled by
returning the pool next to the `Result`. -/
def GpuMemoryPool.allocate (p : GpuMemoryPool) (size : Nat) :
    Except (Nat × Nat) Unit × GpuMemoryPool :=
  if (p.used_memory + size) % u64Mod > p.total_memory then
    (Except.error (size, p.total_memory - p.used_memory), p)
  else
    (Except.ok (), { p with used_memory := (p.used_memory + size) % u64Mod })

/-- `GpuMemoryPool::free` (src/gpu_ops.rs): `saturating_sub`, which is
exactly truncated subtraction on `Nat`. -/
def GpuMemoryPool.free (p : GpuMemoryPool) (size : Nat) : GpuMemoryPool :=
  { p with used_memory := p.used_memory - size }

/-- `GpuMemoryPool::available` (src/gpu_ops.rs). -/
def GpuMemoryPool.available (p : GpuMemoryPool) : Nat :=
  p.total_memory - p.used_memory

/-- `GpuKernelLauncher` (src/gpu_ops.rs). -/
structure GpuKernelLauncher where
  block_size : Nat
  grid_size : Nat

/-- `GpuKernelLauncher::new` (src/gpu_ops.rs): `block_size = 256`,
`grid_size = (total_work + block_size - 1) / block_size` in `usize`
arithmetic: the addition wraps at `2^64` and the subtraction of `1` is a
wrapping subtraction. -/
def GpuKernelLauncher.new (total_work : Nat) : GpuKernelLauncher :=
  let block_size := 256
  let grid_size := ((total_work + block_size) % u64Mod + u64Mod - 1) % u64Mod / block_size
  ⟨block_size, grid_size⟩

/-- The sequence of `(grid_idx, block_idx)` argument pairs that
`GpuKernelLauncher::launch` (src/gpu_ops.rs) passes to the kernel closure,
in order: the nested loop `for grid_idx in 0..grid_size { for block_idx in
0..block_size { kernel(grid_idx, block_idx) } }`. -/
def GpuKernelLauncher.launchPairs (l : GpuKernelLauncher) : List (Nat × Nat) :=
  (List.range l.grid_size).flatMap (fun grid_idx =>
    (List.range l.block_size).map (fun block_idx => (grid_idx, block_idx)))

/-- Sum of squared magnitudes of an amplitude list (the quantity the spec's
unitarity invariant is about). -/
def sumSq (l : List (Complex K)) : K :=
  (l.map Complex.magnitude_squared).sum

/-- In-range / distinctness condition on one gate, against a qubit count
`n`, following the spec's data-model invariant: every qubit-index field in
`[0, n)`; CNOT/SWAP/Toffoli fields pairwise distinct. -/
def gateInRange {A : Type} (n : Nat) (g : QuantumGate A) : Bool :=
  match g with
  | QuantumGate.Hadamard q => q < n
  | QuantumGate.PauliX q => q < n
  | QuantumGate.PauliY q => q < n
  | QuantumGate.PauliZ q => q < n
  | QuantumGate.Phase q _ => q < n
  | QuantumGate.CNOT c t => c < n && t < n && c != t
  | QuantumGate.SWAP a b => a < n && b < n && a != b
  | QuantumGate.Toffoli c1 c2 t =>
      c1 < n && c2 < n && t < n && c1 != c2 && c1 != t && c2 != t
  | QuantumGate.RotationX q _ => q < n
  | QuantumGate.RotationY q _ => q < n
  | QuantumGate.RotationZ q _ => q < n
  | QuantumGate.Measurement q => q < n

/-- Modelled from the spec (section 4.3 CircuitOptimizer), for the
refinement half of the optimizer claim: "single left-to-right pass; at each
position, if the current gate and the immediately next gate are both
Hadamard on the same qubit, or both PauliX on the same qubit, drop both and
advance two positions; otherwise keep the current gate and advance one
position." -/
def specCancelPair {A : Type} (g h : QuantumGate A) : Bool :=
  match g, h with
  | QuantumGate.Hadamard q, QuantumGate.Hadamard q2 => q == q2
  | QuantumGate.PauliX q, QuantumGate.PauliX q2 => q == q2
  | _, _ => false

/-- Modelled from the spec (section 4.3 CircuitOptimizer): the single
left-to-right cancellation pass described by the spec's words. -/
def specSinglePass {A : Type} : List (QuantumGate A) → List (QuantumGate A)
  | [] => []
  | [g] => [g]
  | g :: h :: t =>
    if specCancelPair g h then specSinglePass t
    else g :: specSinglePass (h :: t)

/-- The exact real-number instantiation of the `f64` operations. -/
noncomputable def realFloatOps : FloatOps ℝ :=
  ⟨Real.cos, Real.sin, 1 / Real.sqrt 2, Real.pi⟩

/-- The algebraic facts about the scalar operations that make the gate
kernels unitary: the Pythagorean identity and `(1/sqrt 2)^2 * 2 = 1`.
Both hold exactly for `realFloatOps`. -/
def FloatOps.Unitary (ops : FloatOps K) : Prop :=
  (∀ θ, ops.cos θ * ops.cos θ + ops.sin θ * ops.sin θ = 1) ∧
    ops.sqrt2inv * ops.sqrt2inv * 2 = 1

/-- Well-formedness of a simulator for `n` qubits: the stored qubit count is
`n` and the state vector has its constructed size `2^n`. -/
def SimWF (sim : QuantumSimulator K) (n : Nat) : Prop :=
  sim.num_qubits = n ∧ sim.state.size = 2 ^ n ∧ sim.state.data.length = 2 ^ n

/-- The representative of the pair `{i, i ||| 2^q}` that the paired kernels
iterate on: the index with bit `q` cleared. -/
def pairBase (q r : Nat) : Nat :=
  if r.testBit q then r ^^^ 2 ^ q else r

/-- The value a paired kernel leaves at index `r` (when the guard selects
the pair of `r`): the first component of the update at the bit-clear member
of the pair, the second at the bit-set member. -/
def pairTarget (q : Nat) (u : Complex K → Complex K → Complex K × Complex K)
    (d : List (Complex K)) (r : Nat) : Complex K :=
  let p := pairBase q r
  let a := d.getD p ⟨0, 0⟩
  let b := d.getD (p ||| 2 ^ q) ⟨0, 0⟩
  if r.testBit q then (u a b).2 else (u a b).1

/-! ## Generic facts about the Option-monad folds used by the kernels -/

theorem foldlM_option_inv {α β : Type} (f : β → α → Option β) (P : β → Prop)
    (hf : ∀ b a b2, P b → f b a = some b2 → P b2) :
    ∀ (l : List α) (b b2 : β), P b → l.foldlM f b = some b2 → P b2 := by
  intro l
  induction l with
  | nil =>
    intro b b2 hP h
    simp only [List.foldlM_nil] at h
    cases h
    exact hP
  | cons a t ih =>
    intro b b2 hP h
    rw [List.foldlM_cons] at h
    cases hfa : f b a with
    | none => rw [hfa] at h; cases h
    | some b1 =>
      rw [hfa] at h
      simp only [Option.bind_eq_bind, Option.some_bind] at h
      exact ih b1 b2 (hf b a b1 hP hfa) h

theorem foldlM_option_total {α β : Type} (f : β → α → Option β) (P : β → Prop) :
    ∀ (l : List α) (b : β), P b →
      (∀ b2 a, a ∈ l → P b2 → ∃ b3, f b2 a = some b3 ∧ P b3) →
      ∃ b2, l.foldlM f b = some b2 ∧ P b2 := by
  intro l
  induction l with
  | nil =>
    intro b hP _
    exact ⟨b, by simp, hP⟩
  | cons a t ih =>
    intro b hP hf
    obtain ⟨b1, hb1, hPb1⟩ := hf b a (by simp) hP
    obtain ⟨b2, hb2, hPb2⟩ :=
      ih b1 hPb1 (fun b2 x hx hP2 => hf b2 x (by simp [hx]) hP2)
    refine ⟨b2, ?_, hPb2⟩
    rw [List.foldlM_cons, hb1]
    simpa using hb2

/-! ## Sum-of-squares bookkeeping -/

theorem magnitude_squared_def (c : Complex K) :
    c.magnitude_squared = c.re * c.re + c.im * c.im := rfl

theorem sumSq_nil : sumSq ([] : List (Complex K)) = 0 := rfl

theorem sumSq_cons (c : Complex K) (l : List (Complex K)) :
    sumSq (c :: l) = c.magnitude_squared + sumSq l := by
  simp [sumSq]

theorem sumSq_set (l : List (Complex K)) (n : Nat) (x a : Complex K)
    (h : l[n]? = some a) :
    sumSq (l.set n x) = sumSq l - a.magnitude_squared + x.magnitude_squared := by
  induction l generalizing n with
  | nil => simp at h
  | cons b t ih =>
    cases n with
    | zero =>
      simp only [List.getElem?_cons_zero, Option.some_inj] at h
      subst h
      simp only [List.set_cons_zero, sumSq_cons]
      ring
    | succ n =>
      simp only [List.getElem?_cons_succ] at h
      simp only [List.set_cons_succ, sumSq_cons, ih n h]
      ring

theorem sumSq_replicate_zero (k : Nat) :
    sumSq (List.replicate k (⟨0, 0⟩ : Complex K)) = 0 := by
  induction k with
  | zero => rfl
  | succ k ih =>
    simp [List.replicate_succ, sumSq_cons, ih, magnitude_squared_def]

theorem sumSq_new (n : Nat) : sumSq (GpuStateVector.new (K := K) n).data = 1 := by
  have h : ∃ k, 1 <<< n = k + 1 := by
    refine ⟨2 ^ n - 1, ?_⟩
    have := Nat.one_le_two_pow (n := n)
    simp [Nat.shiftLeft_eq]
    omega
  obtain ⟨k, hk⟩ := h
  simp only [GpuStateVector.new, hk, List.replicate_succ, List.set_cons_zero]
  simp [sumSq_cons, sumSq_replicate_zero, magnitude_squared_def]

/-! ## Bit-arithmetic facts about the index pairing -/

theorem exists_testBit_of_ne_zero {m : Nat} (hm : m ≠ 0) :
    ∃ t, m.testBit t = true := by
  by_contra h
  push_neg at h
  refine hm (Nat.eq_of_testBit_eq fun t => ?_)
  simp only [Nat.zero_testBit]
  exact Bool.eq_false_iff.mpr (h t)

theorem ne_or_of_and_eq_zero {i m : Nat} (hm : m ≠ 0) (hi : i &&& m = 0) :
    i ≠ i ||| m := by
  obtain ⟨t, ht⟩ := exists_testBit_of_ne_zero hm
  intro he
  have h1 : (i &&& m).testBit t = false := by simp [hi]
  rw [Nat.testBit_and, ht, Bool.and_true] at h1
  have h2 : (i ||| m).testBit t = true := by
    simp [Nat.testBit_or, ht]
  rw [← he, h1] at h2
  cases h2

theorem and_two_pow_eq_zero_iff (i q : Nat) :
    i &&& 2 ^ q = 0 ↔ i.testBit q = false := by
  rw [Nat.and_two_pow]
  rcases h : i.testBit q <;> simp [h]

theorem or_two_pow_xor {i q : Nat} (hi : i.testBit q = false) :
    (i ||| 2 ^ q) ^^^ 2 ^ q = i := by
  refine Nat.eq_of_testBit_eq fun t => ?_
  simp only [Nat.testBit_xor, Nat.testBit_or, Nat.testBit_two_pow]
  by_cases h : q = t
  · subst h
    simp [hi]
  · simp [h]

theorem xor_two_pow_testBit {r q : Nat} (hr : r.testBit q = true) :
    (r ^^^ 2 ^ q).testBit q = false := by
  simp [Nat.testBit_xor, hr, Nat.testBit_two_pow]

theorem xor_two_pow_or {r q : Nat} (hr : r.testBit q = true) :
    (r ^^^ 2 ^ q) ||| 2 ^ q = r := by
  refine Nat.eq_of_testBit_eq fun t => ?_
  simp only [Nat.testBit_or, Nat.testBit_xor, Nat.testBit_two_pow]
  by_cases h : q = t
  · subst h
    simp [hr]
  · simp [h]

theorem or_eq_xor_of_testBit_false {i q : Nat} (hi : i.testBit q = false) :
    i ||| 2 ^ q = i ^^^ 2 ^ q := by
  refine Nat.eq_of_testBit_eq fun t => ?_
  simp only [Nat.testBit_or, Nat.testBit_xor, Nat.testBit_two_pow]
  by_cases h : q = t
  · subst h
    simp [hi]
  · simp [h]

theorem shiftLeft_one (q : Nat) : 1 <<< q = 2 ^ q := by
  simp [Nat.shiftLeft_eq]

/-! ## Step-level preservation and totality -/

theorem pairUpdate_sumSq {g : Nat → Bool} {m : Nat}
    {u : Complex K → Complex K → Complex K × Complex K}
    (hm : m ≠ 0) (hg : ∀ i, g i = true → i &&& m = 0)
    (hu : ∀ a b, (u a b).1.magnitude_squared + (u a b).2.magnitude_squared =
      a.magnitude_squared + b.magnitude_squared)
    {d d2 : List (Complex K)} {i : Nat}
    (h : pairUpdate g m u d i = some d2) :
    sumSq d2 = sumSq d ∧ d2.length = d.length := by
  unfold pairUpdate at h
  by_cases hgi : g i = true
  · rw [if_pos hgi] at h
    cases ha : d[i]? with
    | none => rw [ha] at h; cases h
    | some a =>
      cases hb : d[(i ||| m)]? with
      | none => rw [ha, hb] at h; cases h
      | some b =>
        rw [ha, hb] at h
        cases h
        have hne : i ≠ i ||| m := ne_or_of_and_eq_zero hm (hg i hgi)
        have hb2 : (d.set i (u a b).1)[(i ||| m)]? = some b := by
          rw [List.getElem?_set_ne hne, hb]
        constructor
        · rw [sumSq_set _ _ _ _ hb2, sumSq_set _ _ _ _ ha]
          linear_combination hu a b
        · simp
  · rw [if_neg hgi] at h
    cases h
    exact ⟨rfl, rfl⟩

theorem pairUpdate_some {g : Nat → Bool} {m : Nat}
    {u : Complex K → Complex K → Complex K × Complex K}
    {d : List (Complex K)} {i : Nat}
    (hi : i < d.length) (hj : g i = true → i ||| m < d.length) :
    ∃ d2, pairUpdate g m u d i = some d2 ∧ d2.length = d.length := by
  unfold pairUpdate
  by_cases hgi : g i = true
  · rw [if_pos hgi]
    have ha : ∃ a, d[i]? = some a := by
      simp [List.getElem?_eq_getElem hi]
    have hb : ∃ b, d[(i ||| m)]? = some b := by
      simp [List.getElem?_eq_getElem (hj hgi)]
    obtain ⟨a, ha⟩ := ha
    obtain ⟨b, hb⟩ := hb
    rw [ha, hb]
    exact ⟨_, rfl, by simp⟩
  · rw [if_neg hgi]
    exact ⟨d, rfl, rfl⟩

theorem pointUpdate_sumSq {g : Nat → Bool} {u : Complex K → Complex K}
    (hu : ∀ a, (u a).magnitude_squared = a.magnitude_squared)
    {d d2 : List (Complex K)} {i : Nat}
    (h : pointUpdate g u d i = some d2) :
    sumSq d2 = sumSq d ∧ d2.length = d.length := by
  unfold pointUpdate at h
  by_cases hgi : g i = true
  · rw [if_pos hgi] at h
    cases ha : d[i]? with
    | none => rw [ha] at h; cases h
    | some a =>
      rw [ha] at h
      cases h
      constructor
      · rw [sumSq_set _ _ _ _ ha, hu a]
        ring
      · simp
  · rw [if_neg hgi] at h
    cases h
    exact ⟨rfl, rfl⟩

theorem pointUpdate_some {g : Nat → Bool} {u : Complex K → Complex K}
    {d : List (Complex K)} {i : Nat} (hi : i < d.length) :
    ∃ d2, pointUpdate g u d i = some d2 ∧ d2.length = d.length := by
  unfold pointUpdate
  by_cases hgi : g i = true
  · rw [if_pos hgi]
    have ha : ∃ a, d[i]? = some a := by
      simp [List.getElem?_eq_getElem hi]
    obtain ⟨a, ha⟩ := ha
    rw [ha]
    exact ⟨_, rfl, by simp⟩
  · rw [if_neg hgi]
    exact ⟨d, rfl, rfl⟩

/-! ## Loop-level preservation and totality -/

theorem pairLoop_sumSq {g : Nat → Bool} {m : Nat}
    {u : Complex K → Complex K → Complex K × Complex K}
    (hm : m ≠ 0) (hg : ∀ i, g i = true → i &&& m = 0)
    (hu : ∀ a b, (u a b).1.magnitude_squared + (u a b).2.magnitude_squared =
      a.magnitude_squared + b.magnitude_squared)
    {z : Nat} {d d2 : List (Complex K)}
    (h : pairLoop g m u z d = some d2) :
    sumSq d2 = sumSq d ∧ d2.length = d.length := by
  refine foldlM_option_inv _ (fun x => sumSq x = sumSq d ∧ x.length = d.length)
    ?_ (List.range z) d d2 ⟨rfl, rfl⟩ h
  intro b a b2 hP hstep
  obtain ⟨h1, h2⟩ := pairUpdate_sumSq hm hg hu hstep
  exact ⟨h1.trans hP.1, h2.trans hP.2⟩

theorem pairLoop_some {g : Nat → Bool} {m : Nat}
    {u : Complex K → Complex K → Complex K × Complex K}
    {z : Nat} {d : List (Complex K)}
    (hsize : z ≤ d.length)
    (hj : ∀ i, i < z → g i = true → i ||| m < d.length) :
    ∃ d2, pairLoop g m u z d = some d2 ∧ d2.length = d.length := by
  refine foldlM_option_total _ (fun x => x.length = d.length)
    (List.range z) d rfl ?_
  intro b i hi hP
  rw [List.mem_range] at hi
  obtain ⟨b2, hb2, hlen⟩ := pairUpdate_some (d := b) (i := i)
    (g := g) (m := m) (u := u)
    (by omega) (fun hgi => by rw [hP]; exact hj i hi hgi)
  exact ⟨b2, hb2, hlen.trans hP⟩

theorem pointLoop_sumSq {g : Nat → Bool} {u : Complex K → Complex K}
    (hu : ∀ a, (u a).magnitude_squared = a.magnitude_squared)
    {z : Nat} {d d2 : List (Complex K)}
    (h : pointLoop g u z d = some d2) :
    sumSq d2 = sumSq d ∧ d2.length = d.length := by
  refine foldlM_option_inv _ (fun x => sumSq x = sumSq d ∧ x.length = d.length)
    ?_ (List.range z) d d2 ⟨rfl, rfl⟩ h
  intro b a b2 hP hstep
  obtain ⟨h1, h2⟩ := pointUpdate_sumSq hu hstep
  exact ⟨h1.trans hP.1, h2.trans hP.2⟩

theorem pointLoop_some {g : Nat → Bool} {u : Complex K → Complex K}
    {z : Nat} {d : List (Complex K)} (hsize : z ≤ d.length) :
    ∃ d2, pointLoop g u z d = some d2 ∧ d2.length = d.length := by
  refine foldlM_option_total _ (fun x => x.length = d.length)
    (List.range z) d rfl ?_
  intro b i hi hP
  rw [List.mem_range] at hi
  obtain ⟨b2, hb2, hlen⟩ := pointUpdate_some (d := b) (i := i)
    (g := g) (u := u) (by omega)
  exact ⟨b2, hb2, hlen.trans hP⟩

theorem pairKernel_ok {g : Nat → Bool} {m : Nat}
    {u : Complex K → Complex K → Complex K × Complex K}
    (hm : m ≠ 0) (hg : ∀ i, g i = true → i &&& m = 0)
    (hu : ∀ a b, (u a b).1.magnitude_squared + (u a b).2.magnitude_squared =
      a.magnitude_squared + b.magnitude_squared)
    {z : Nat} {d : List (Complex K)}
    (hsize : z ≤ d.length)
    (hj : ∀ i, i < z → g i = true → i ||| m < d.length) :
    ∃ d2, pairLoop g m u z d = some d2 ∧ d2.length = d.length ∧
      sumSq d2 = sumSq d := by
  obtain ⟨d2, hd2, hlen⟩ := pairLoop_some (u := u) hsize hj
  exact ⟨d2, hd2, hlen, (pairLoop_sumSq hm hg hu hd2).1⟩

theorem pointKernel_ok {g : Nat → Bool} {u : Complex K → Complex K}
    (hu : ∀ a, (u a).magnitude_squared = a.magnitude_squared)
    {z : Nat} {d : List (Complex K)} (hsize : z ≤ d.length) :
    ∃ d2, pointLoop g u z d = some d2 ∧ d2.length = d.length ∧
      sumSq d2 = sumSq d := by
  obtain ⟨d2, hd2, hlen⟩ := pointLoop_some (g := g) (u := u) hsize
  exact ⟨d2, hd2, hlen, (pointLoop_sumSq hu hd2).1⟩

theorem or_mask_lt {n q i : Nat} (hq : q < n) (hi : i < 2 ^ n) :
    i ||| 2 ^ q < 2 ^ n :=
  Nat.or_lt_two_pow hi (Nat.pow_lt_pow_right (by norm_num) hq)

/-! ## Per-method success and norm preservation, at the simulator level -/

theorem apply_hadamard_ok {ops : FloatOps K} (hops : ops.Unitary)
    {sim : QuantumSimulator K} {n q : Nat} (hWF : SimWF sim n) (hq : q < n) :
    ∃ sim2, sim.apply_hadamard ops q = some sim2 ∧ SimWF sim2 n ∧
      sumSq sim2.state.data = sumSq sim.state.data := by
  obtain ⟨hn, hsz, hlen⟩ := hWF
  obtain ⟨d2, hd2, hdlen, hdsum⟩ := pairKernel_ok
    (g := fun i => i &&& (1 <<< q) == 0) (m := 1 <<< q)
    (u := fun a b =>
      (⟨ops.sqrt2inv * (a.re + b.re), ops.sqrt2inv * (a.im + b.im)⟩,
       ⟨ops.sqrt2inv * (a.re - b.re), ops.sqrt2inv * (a.im - b.im)⟩))
    (by rw [shiftLeft_one]; positivity)
    (fun i h => by simpa using h)
    (fun a b => by
      simp only [magnitude_squared_def]
      linear_combination (a.re * a.re + a.im * a.im + b.re * b.re + b.im * b.im) * hops.2)
    (z := sim.state.size) (d := sim.state.data)
    (by omega)
    (fun i hi _ => by
      rw [hlen, shiftLeft_one]
      exact or_mask_lt hq (by omega))
  refine ⟨{ sim with state := ⟨sim.state.size, d2⟩ }, ?_, ⟨hn, hsz, by simp [hdlen, hlen]⟩, hdsum⟩
  simp only [QuantumSimulator.apply_hadamard, GpuStateVector.apply_hadamard_gpu]
  rw [hd2]
  rfl

theorem apply_x_ok {sim : QuantumSimulator K} {n q : Nat}
    (hWF : SimWF sim n) (hq : q < n) :
    ∃ sim2, sim.apply_x q = some sim2 ∧ SimWF sim2 n ∧
      sumSq sim2.state.data = sumSq sim.state.data := by
  obtain ⟨hn, hsz, hlen⟩ := hWF
  obtain ⟨d2, hd2, hdlen, hdsum⟩ := pairKernel_ok
    (g := fun i => i &&& (1 <<< q) == 0) (m := 1 <<< q)
    (u := fun a b => ((b, a) : Complex K × Complex K))
    (by rw [shiftLeft_one]; positivity)
    (fun i h => by simpa using h)
    (fun a b => by simp only [magnitude_squared_def]; ring)
    (z := sim.state.size) (d := sim.state.data)
    (by omega)
    (fun i hi _ => by
      rw [hlen, shiftLeft_one]
      exact or_mask_lt hq (by omega))
  refine ⟨{ sim with state := ⟨sim.state.size, d2⟩ }, ?_, ⟨hn, hsz, by simp [hdlen, hlen]⟩, hdsum⟩
  simp only [QuantumSimulator.apply_x, GpuStateVector.apply_x_gpu]
  rw [hd2]
  rfl

theorem apply_y_ok {sim : QuantumSimulator K} {n q : Nat}
    (hWF : SimWF sim n) (hq : q < n) :
    ∃ sim2, sim.apply_y q = some sim2 ∧ SimWF sim2 n ∧
      sumSq sim2.state.data = sumSq sim.state.data := by
  obtain ⟨hn, hsz, hlen⟩ := hWF
  obtain ⟨d2, hd2, hdlen, hdsum⟩ := pairKernel_ok
    (g := fun i => i &&& (1 <<< q) == 0) (m := 1 <<< q)
    (u := fun a b => ((⟨b.im, -b.re⟩, ⟨-a.im, a.re⟩) : Complex K × Complex K))
    (by rw [shiftLeft_one]; positivity)
    (fun i h => by simpa using h)
    (fun a b => by simp only [magnitude_squared_def]; ring)
    (z := sim.state.size) (d := sim.state.data)
    (by omega)
    (fun i hi _ => by
      rw [hlen, shiftLeft_one]
      exact or_mask_lt hq (by omega))
  refine ⟨{ sim with state := ⟨sim.state.size, d2⟩ }, ?_, ⟨hn, hsz, by simp [hdlen, hlen]⟩, hdsum⟩
  simp only [QuantumSimulator.apply_y, GpuStateVector.apply_y_gpu]
  rw [hd2]
  rfl

theorem apply_z_ok {sim : QuantumSimulator K} {n q : Nat}
    (hWF : SimWF sim n) :
    ∃ sim2, sim.apply_z q = some sim2 ∧ SimWF sim2 n ∧
      sumSq sim2.state.data = sumSq sim.state.data := by
  obtain ⟨hn, hsz, hlen⟩ := hWF
  obtain ⟨d2, hd2, hdlen, hdsum⟩ := pointKernel_ok
    (g := fun i => i &&& (1 <<< q) != 0)
    (u := fun c => (⟨-c.re, -c.im⟩ : Complex K))
    (fun a => by simp only [magnitude_squared_def]; ring)
    (z := sim.state.size) (d := sim.state.data) (by omega)
  refine ⟨{ sim with state := ⟨sim.state.size, d2⟩ }, ?_, ⟨hn, hsz, by simp [hdlen, hlen]⟩, hdsum⟩
  simp only [QuantumSimulator.apply_z, GpuStateVector.apply_z_gpu]
  rw [hd2]
  rfl

theorem apply_phase_ok {ops : FloatOps K} (hops : ops.Unitary)
    {sim : QuantumSimulator K} {n q : Nat} {w : K} (hWF : SimWF sim n) :
    ∃ sim2, sim.apply_phase ops q w = some sim2 ∧ SimWF sim2 n ∧
      sumSq sim2.state.data = sumSq sim.state.data := by
  obtain ⟨hn, hsz, hlen⟩ := hWF
  obtain ⟨d2, hd2, hdlen, hdsum⟩ := pointKernel_ok
    (g := fun i => i &&& (1 <<< q) != 0)
    (u := fun c => (⟨c.re * ops.cos w - c.im * ops.sin w,
                    c.re * ops.sin w + c.im * ops.cos w⟩ : Complex K))
    (fun a => by
      simp only [magnitude_squared_def]
      linear_combination (a.re * a.re + a.im * a.im) * hops.1 w)
    (z := sim.state.size) (d := sim.state.data) (by omega)
  refine ⟨{ sim with state := ⟨sim.state.size, d2⟩ }, ?_, ⟨hn, hsz, by simp [hdlen, hlen]⟩, hdsum⟩
  simp only [QuantumSimulator.apply_phase, GpuStateVector.apply_phase_gpu]
  rw [hd2]
  rfl

theorem apply_cnot_ok {sim : QuantumSimulator K} {n c t : Nat}
    (hWF : SimWF sim n) (ht : t < n) :
    ∃ sim2, sim.apply_cnot c t = some sim2 ∧ SimWF sim2 n ∧
      sumSq sim2.state.data = sumSq sim.state.data := by
  obtain ⟨hn, hsz, hlen⟩ := hWF
  obtain ⟨d2, hd2, hdlen, hdsum⟩ := pairKernel_ok
    (g := fun i => (i &&& (1 <<< c) != 0) && (i &&& (1 <<< t) == 0))
    (m := 1 <<< t)
    (u := fun a b => ((b, a) : Complex K × Complex K))
    (by rw [shiftLeft_one]; positivity)
    (fun i h => by
      rw [Bool.and_eq_true] at h
      simpa using h.2)
    (fun a b => by simp only [magnitude_squared_def]; ring)
    (z := sim.state.size) (d := sim.state.data)
    (by omega)
    (fun i hi _ => by
      rw [hlen, shiftLeft_one]
      exact or_mask_lt ht (by omega))
  refine ⟨{ sim with state := ⟨sim.state.size, d2⟩ }, ?_, ⟨hn, hsz, by simp [hdlen, hlen]⟩, hdsum⟩
  simp only [QuantumSimulator.apply_cnot, GpuStateVector.apply_cnot_gpu]
  rw [hd2]
  rfl

theorem apply_rx_ok {ops : FloatOps K} (hops : ops.Unitary)
    {sim : QuantumSimulator K} {n q : Nat} {w : K}
    (hWF : SimWF sim n) (hq : q < n) :
    ∃ sim2, sim.apply_rx ops q w = some sim2 ∧ SimWF sim2 n ∧
      sumSq sim2.state.data = sumSq sim.state.data := by
  obtain ⟨hn, hsz, hlen⟩ := hWF
  obtain ⟨d2, hd2, hdlen, hdsum⟩ := pairKernel_ok
    (g := fun i => i &&& (1 <<< q) == 0) (m := 1 <<< q)
    (u := fun a b =>
      ((⟨ops.cos (w / 2) * a.re + ops.sin (w / 2) * b.im,
         ops.cos (w / 2) * a.im - ops.sin (w / 2) * b.re⟩,
        ⟨ops.cos (w / 2) * b.re + ops.sin (w / 2) * a.im,
         ops.cos (w / 2) * b.im - ops.sin (w / 2) * a.re⟩) :
        Complex K × Complex K))
    (by rw [shiftLeft_one]; positivity)
    (fun i h => by simpa using h)
    (fun a b => by
      simp only [magnitude_squared_def]
      linear_combination
        (a.re * a.re + a.im * a.im + b.re * b.re + b.im * b.im) * hops.1 (w / 2))
    (z := sim.state.size) (d := sim.state.data)
    (by omega)
    (fun i hi _ => by
      rw [hlen, shiftLeft_one]
      exact or_mask_lt hq (by omega))
  refine ⟨{ sim with state := ⟨sim.state.size, d2⟩ }, ?_, ⟨hn, hsz, by simp [hdlen, hlen]⟩, hdsum⟩
  simp only [QuantumSimulator.apply_rx, GpuStateVector.apply_rotation_gpu,
    GpuStateVector.apply_rx_gpu]
  rw [hd2]
  rfl

theorem apply_ry_ok {ops : FloatOps K} (hops : ops.Unitary)
    {sim : QuantumSimulator K} {n q : Nat} {w : K}
    (hWF : SimWF sim n) (hq : q < n) :
    ∃ sim2, sim.apply_ry ops q w = some sim2 ∧ SimWF sim2 n ∧
      sumSq sim2.state.data = sumSq sim.state.data := by
  obtain ⟨hn, hsz, hlen⟩ := hWF
  obtain ⟨d2, hd2, hdlen, hdsum⟩ := pairKernel_ok
    (g := fun i => i &&& (1 <<< q) == 0) (m := 1 <<< q)
    (u := fun a b =>
      ((⟨ops.cos (w / 2) * a.re - ops.sin (w / 2) * b.re,
         ops.cos (w / 2) * a.im - ops.sin (w / 2) * b.im⟩,
        ⟨ops.sin (w / 2) * a.re + ops.cos (w / 2) * b.re,
         ops.sin (w / 2) * a.im + ops.cos (w / 2) * b.im⟩) :
        Complex K × Complex K))
    (by rw [shiftLeft_one]; positivity)
    (fun i h => by simpa using h)
    (fun a b => by
      simp only [magnitude_squared_def]
      linear_combination
        (a.re * a.re + a.im * a.im + b.re * b.re + b.im * b.im) * hops.1 (w / 2))
    (z := sim.state.size) (d := sim.state.data)
    (by omega)
    (fun i hi _ => by
      rw [hlen, shiftLeft_one]
      exact or_mask_lt hq (by omega))
  refine ⟨{ sim with state := ⟨sim.state.size, d2⟩ }, ?_, ⟨hn, hsz, by simp [hdlen, hlen]⟩, hdsum⟩
  simp only [QuantumSimulator.apply_ry, GpuStateVector.apply_rotation_gpu,
    GpuStateVector.apply_ry_gpu]
  rw [hd2]
  rfl

theorem apply_rz_ok {ops : FloatOps K} (hops : ops.Unitary)
    {sim : QuantumSimulator K} {n q : Nat} {w : K} (hWF : SimWF sim n) :
    ∃ sim2, sim.apply_rz ops q w = some sim2 ∧ SimWF sim2 n ∧
      sumSq sim2.state.data = sumSq sim.state.data := by
  obtain ⟨sim2, h2, hWF2, hsum2⟩ := apply_phase_ok hops (q := q) (w := w) hWF
  refine ⟨sim2, ?_, hWF2, hsum2⟩
  simpa [QuantumSimulator.apply_rz, QuantumSimulator.apply_phase,
    GpuStateVector.apply_rotation_gpu, GpuStateVector.apply_rz_gpu] using h2

theorem apply_swap_ok {sim : QuantumSimulator K} {n q1 q2 : Nat}
    (hWF : SimWF sim n) (h1 : q1 < n) (h2 : q2 < n) :
    ∃ sim2, sim.apply_swap q1 q2 = some sim2 ∧ SimWF sim2 n ∧
      sumSq sim2.state.data = sumSq sim.state.data := by
  obtain ⟨s1, e1, w1, p1⟩ := apply_cnot_ok (c := q1) hWF h2
  obtain ⟨s2, e2, w2, p2⟩ := apply_cnot_ok (c := q2) w1 h1
  obtain ⟨s3, e3, w3, p3⟩ := apply_cnot_ok (c := q1) w2 h2
  refine ⟨s3, ?_, w3, by rw [p3, p2, p1]⟩
  simp [QuantumSimulator.apply_swap, e1, e2, e3]

theorem apply_toffoli_ok {ops : FloatOps K} (hops : ops.Unitary)
    {sim : QuantumSimulator K} {n c1 c2 t : Nat}
    (hWF : SimWF sim n) (ht : t < n) :
    ∃ sim2, sim.apply_toffoli ops c1 c2 t = some sim2 ∧ SimWF sim2 n ∧
      sumSq sim2.state.data = sumSq sim.state.data := by
  obtain ⟨s1, e1, w1, p1⟩ := apply_hadamard_ok hops hWF ht
  obtain ⟨s2, e2, w2, p2⟩ := apply_cnot_ok (c := c2) w1 ht
  obtain ⟨s3, e3, w3, p3⟩ := apply_rz_ok hops (q := t) (w := -(ops.pi / 4)) w2
  obtain ⟨s4, e4, w4, p4⟩ := apply_cnot_ok (c := c1) w3 ht
  obtain ⟨s5, e5, w5, p5⟩ := apply_rz_ok hops (q := t) (w := ops.pi / 4) w4
  obtain ⟨s6, e6, w6, p6⟩ := apply_cnot_ok (c := c2) w5 ht
  obtain ⟨s7, e7, w7, p7⟩ := apply_rz_ok hops (q := t) (w := -(ops.pi / 4)) w6
  obtain ⟨s8, e8, w8, p8⟩ := apply_cnot_ok (c := c1) w7 ht
  obtain ⟨s9, e9, w9, p9⟩ := apply_rz_ok hops (q := t) (w := ops.pi / 4) w8
  obtain ⟨s10, e10, w10, p10⟩ := apply_hadamard_ok hops w9 ht
  refine ⟨s10, ?_, w10, by
    rw [p10, p9, p8, p7, p6, p5, p4, p3, p2, p1]⟩
  simp [QuantumSimulator.apply_toffoli, e1, e2, e3, e4, e5, e6, e7, e8, e9, e10]

/-- An in-range gate always applies successfully and preserves both the
well-formedness of the simulator and the sum of squared magnitudes. -/
theorem apply_gate_ok {ops : FloatOps K} (hops : ops.Unitary)
    {sim : QuantumSimulator K} {n : Nat} {g : QuantumGate K}
    (hWF : SimWF sim n) (hg : gateInRange n g = true) :
    ∃ sim2, sim.apply_gate ops g = some sim2 ∧ SimWF sim2 n ∧
      sumSq sim2.state.data = sumSq sim.state.data := by
  cases g with
  | Hadamard q =>
    simp only [gateInRange, decide_eq_true_eq] at hg
    exact apply_hadamard_ok hops hWF hg
  | PauliX q =>
    simp only [gateInRange, decide_eq_true_eq] at hg
    exact apply_x_ok hWF hg
  | PauliY q =>
    simp only [gateInRange, decide_eq_true_eq] at hg
    exact apply_y_ok hWF hg
  | PauliZ q =>
    exact apply_z_ok hWF
  | Phase q angle =>
    exact apply_phase_ok hops hWF
  | CNOT c t =>
    simp only [gateInRange, Bool.and_eq_true, decide_eq_true_eq] at hg
    exact apply_cnot_ok hWF hg.1.2
  | SWAP q1 q2 =>
    simp only [gateInRange, Bool.and_eq_true, decide_eq_true_eq] at hg
    exact apply_swap_ok hWF hg.1.1 hg.1.2
  | Toffoli c1 c2 t =>
    simp only [gateInRange, Bool.and_eq_true, decide_eq_true_eq] at hg
    exact apply_toffoli_ok hops hWF hg.1.1.1.2
  | RotationX q angle =>
    simp only [gateInRange, decide_eq_true_eq] at hg
    exact apply_rx_ok hops hWF hg
  | RotationY q angle =>
    simp only [gateInRange, decide_eq_true_eq] at hg
    exact apply_ry_ok hops hWF hg
  | RotationZ q angle =>
    exact apply_rz_ok hops hWF
  | Measurement q =>
    exact ⟨sim, rfl, hWF, rfl⟩

/-- A whole list of in-range gates applies successfully and preserves
well-formedness and the sum of squared magnitudes. -/
theorem applyGates_ok {ops : FloatOps K} (hops : ops.Unitary)
    {n : Nat} (gates : List (QuantumGate K)) :
    ∀ sim : QuantumSimulator K, SimWF sim n →
      (∀ g ∈ gates, gateInRange n g = true) →
      ∃ sim2, applyGates ops gates sim = some sim2 ∧ SimWF sim2 n ∧
        sumSq sim2.state.data = sumSq sim.state.data := by
  induction gates with
  | nil =>
    intro sim hWF _
    exact ⟨sim, rfl, hWF, rfl⟩
  | cons g t ih =>
    intro sim hWF hg
    obtain ⟨sim1, e1, w1, p1⟩ := apply_gate_ok hops hWF (hg g (by simp))
    obtain ⟨sim2, e2, w2, p2⟩ := ih sim1 w1 (fun x hx => hg x (by simp [hx]))
    refine ⟨sim2, ?_, w2, by rw [p2, p1]⟩
    rw [applyGates, List.foldlM_cons, e1]
    exact e2

theorem simWF_new (n : Nat) : SimWF (QuantumSimulator.new (K := K) n) n := by
  refine ⟨rfl, ?_, ?_⟩
  · simp [QuantumSimulator.new, GpuStateVector.new, shiftLeft_one]
  · simp [QuantumSimulator.new, GpuStateVector.new, shiftLeft_one]

theorem realFloatOps_unitary : realFloatOps.Unitary := by
  constructor
  · intro θ
    have := Real.sin_sq_add_cos_sq θ
    simp only [realFloatOps]
    nlinarith [Real.sin_sq_add_cos_sq θ]
  · simp only [realFloatOps]
    have h2 : Real.sqrt 2 * Real.sqrt 2 = 2 := Real.mul_self_sqrt (by norm_num)
    have hne : Real.sqrt 2 ≠ 0 := by
      intro h
      rw [h] at h2
      norm_num at h2
    field_simp

/-! ## Claim C2: unitarity of every gate kernel -/

/-- C2: for every circuit whose gates all have in-range, pairwise-distinct
qubit indices, and every prefix (`take k`) of its gates applied in order
starting from the initial state (amplitude 1 at index 0), the application
succeeds and the sum over all basis indices of the squared magnitude of the
amplitude equals 1 exactly (over the reals): every gate kernel — Hadamard,
PauliX/Y/Z, Phase, RotationX/Y/Z, CNOT, and the SWAP/Toffoli compositions —
preserves the norm of the state vector. -/
theorem unitarity_all_gate_kernels (c : QuantumCircuit ℝ)
    (h : ∀ g ∈ c.gates, gateInRange c.num_qubits g = true) (k : Nat) :
    ∃ sim, applyGates realFloatOps (c.gates.take k)
        (QuantumSimulator.new c.num_qubits) = some sim ∧
      sumSq sim.state.data = 1 := by
  obtain ⟨sim, e, _, p⟩ := applyGates_ok realFloatOps_unitary (c.gates.take k)
    (QuantumSimulator.new c.num_qubits) (simWF_new _)
    (fun g hg => h g (List.mem_of_mem_take hg))
  refine ⟨sim, e, ?_⟩
  rw [p]
  exact sumSq_new _

/-- Witness for C2 at the Bell circuit, full prefix. -/
theorem unitarity_all_gate_kernels_witness :
    (∀ g ∈ (create_bell_state (K := ℝ)).gates,
      gateInRange (create_bell_state (K := ℝ)).num_qubits g = true) ∧
    (∃ sim, applyGates realFloatOps ((create_bell_state (K := ℝ)).gates.take 2)
        (QuantumSimulator.new (create_bell_state (K := ℝ)).num_qubits) = some sim ∧
      sumSq sim.state.data = 1) :=
  ⟨by decide, unitarity_all_gate_kernels create_bell_state (by decide) 2⟩

/-! ## Claim C8: Measurement gates are a no-op on the state vector -/

/-- C8: for every simulator state and every `Measurement` gate descriptor,
`apply_gate` returns the state unchanged (in particular every amplitude of
the state vector is unchanged). -/
theorem apply_gate_measurement_noop (sim : QuantumSimulator ℝ) (q : Nat) :
    sim.apply_gate realFloatOps (QuantumGate.Measurement q) = some sim := rfl

/-! ## Claim C7: QFT circuit gate count -/

theorem qft_gates_length_double {o : FloatOps K} (n : Nat) :
    (create_qft_circuit o n).gates.length * 2 = n * (n + 1) := by
  induction n with
  | zero => rfl
  | succ m ih =>
    simp only [create_qft_circuit] at ih ⊢
    rw [List.range_succ, List.reverse_append]
    simp only [List.reverse_singleton, List.singleton_append, List.flatMap_cons,
      List.length_append, List.length_cons, List.length_map, List.length_reverse,
      List.length_range]
    have hBA : (m + 1) * (m + 1 + 1) = m * (m + 1) + 2 * (m + 1) := by ring
    rw [hBA, ← ih]
    omega

/-- C7: for every `n ≥ 1` the QFT generator produces a circuit with exactly
`n + n*(n-1)/2` gates. -/
theorem qft_gate_count (n : Nat) (h : 1 ≤ n) :
    (create_qft_circuit realFloatOps n).gates.length = n + n * (n - 1) / 2 := by
  obtain ⟨m, rfl⟩ : ∃ m, n = m + 1 := ⟨n - 1, by omega⟩
  have key := qft_gates_length_double (o := realFloatOps) (m + 1)
  have hBA : (m + 1) * (m + 1 + 1) = (m + 1) * m + 2 * (m + 1) := by ring
  rw [hBA] at key
  have hsub : (m + 1) - 1 = m := by omega
  rw [hsub]
  omega

/-- Witness for C7 at `n = 3`: the QFT circuit on 3 qubits has 6 gates. -/
theorem qft_gate_count_witness :
    (create_qft_circuit realFloatOps 3).gates.length = 3 + 3 * (3 - 1) / 2 :=
  qft_gate_count 3 (by decide)

/-! ## Claim C5: the memory pool allocator -/

/-- C5 as stated is false at the `u64` boundary: on the reachable pool with
`total_memory = used_memory = 2^64 - 1` (obtained from a fresh pool of
capacity `2^64 - 1` by one maximal allocation), `allocate (2^64 - 1)`
succeeds — the wrapping `u64` sum compares below the capacity — although
`used + size ≤ capacity` is false. -/
theorem allocate_iff_counterexample :
    (((GpuMemoryPool.new (2 ^ 64 - 1)).allocate (2 ^ 64 - 1)).2.allocate
      (2 ^ 64 - 1)).1 = Except.ok () ∧
    ¬(((GpuMemoryPool.new (2 ^ 64 - 1)).allocate (2 ^ 64 - 1)).2.used_memory
        + (2 ^ 64 - 1) ≤
      ((GpuMemoryPool.new (2 ^ 64 - 1)).allocate (2 ^ 64 - 1)).2.total_memory) := by
  constructor
  · rfl
  · decide

/-- C5 amended: provided the `u64` addition `used + size` does not overflow
(`used + size < 2^64`), `allocate size` succeeds and increases `used` by
exactly `size` iff `used + size ≤ capacity`; otherwise it fails reporting
the requested size and the remaining capacity and leaves the pool
unchanged.  Consequently a fresh pool of any representable capacity rejects
`allocate (capacity+1)` unchanged, and `allocate capacity` succeeds leaving
`available() = 0`. -/
theorem allocate_spec (p : GpuMemoryPool) (size capacity : Nat)
    (hno : p.used_memory + size < u64Mod) (hcap : capacity + 1 < u64Mod) :
    (((p.allocate size).1 = Except.ok () ∧
      (p.allocate size).2.used_memory = p.used_memory + size ∧
      (p.allocate size).2.total_memory = p.total_memory) ↔
        p.used_memory + size ≤ p.total_memory) ∧
    (p.total_memory < p.used_memory + size →
      (p.allocate size).1 = Except.error (size, p.total_memory - p.used_memory) ∧
      (p.allocate size).2 = p) ∧
    (((GpuMemoryPool.new capacity).allocate (capacity + 1)).1 =
      Except.error (capacity + 1, capacity) ∧
      ((GpuMemoryPool.new capacity).allocate (capacity + 1)).2 =
        GpuMemoryPool.new capacity) ∧
    (((GpuMemoryPool.new capacity).allocate capacity).1 = Except.ok () ∧
      ((GpuMemoryPool.new capacity).allocate capacity).2.available = 0) := by
  have hmod : (p.used_memory + size) % u64Mod = p.used_memory + size :=
    Nat.mod_eq_of_lt hno
  have hmod1 : (0 + (capacity + 1)) % u64Mod = capacity + 1 := by
    rw [Nat.zero_add]
    exact Nat.mod_eq_of_lt (by omega)
  have hmod2 : (0 + capacity) % u64Mod = capacity := by
    rw [Nat.zero_add]
    exact Nat.mod_eq_of_lt (by omega)
  refine ⟨⟨?_, ?_⟩, ?_, ?_, ?_⟩
  · rintro ⟨hok, -, -⟩
    by_contra hgt
    have hc : (p.used_memory + size) % u64Mod > p.total_memory := by
      rw [hmod]
      omega
    unfold GpuMemoryPool.allocate at hok
    rw [if_pos hc] at hok
    exact Except.noConfusion hok
  · intro hle
    have hc : ¬(p.used_memory + size) % u64Mod > p.total_memory := by
      rw [hmod]
      omega
    unfold GpuMemoryPool.allocate
    rw [if_neg hc]
    exact ⟨rfl, by simp [hmod], rfl⟩
  · intro hgt
    have hc : (p.used_memory + size) % u64Mod > p.total_memory := by
      rw [hmod]
      omega
    unfold GpuMemoryPool.allocate
    rw [if_pos hc]
    exact ⟨rfl, rfl⟩
  · have hc : ((GpuMemoryPool.new capacity).used_memory + (capacity + 1)) % u64Mod >
        (GpuMemoryPool.new capacity).total_memory := by
      simp only [GpuMemoryPool.new]
      rw [hmod1]
      omega
    unfold GpuMemoryPool.allocate
    rw [if_pos hc]
    exact ⟨by simp [GpuMemoryPool.new], rfl⟩
  · have hc : ¬((GpuMemoryPool.new capacity).used_memory + capacity) % u64Mod >
        (GpuMemoryPool.new capacity).total_memory := by
      simp only [GpuMemoryPool.new]
      rw [hmod2]
      omega
    unfold GpuMemoryPool.allocate
    rw [if_neg hc]
    refine ⟨rfl, ?_⟩
    simp only [GpuMemoryPool.available, GpuMemoryPool.new]
    rw [hmod2]
    omega

/-- Witness for C5 at a concrete pool: capacity 100, 40 already used,
request 10; and the fresh-pool consequences at capacity 100. -/
theorem allocate_spec_witness :
    ((⟨100, 40⟩ : GpuMemoryPool).used_memory + 10 < u64Mod) ∧
    ((100 : Nat) + 1 < u64Mod) ∧
    (((((⟨100, 40⟩ : GpuMemoryPool).allocate 10).1 = Except.ok () ∧
      ((⟨100, 40⟩ : GpuMemoryPool).allocate 10).2.used_memory =
        (⟨100, 40⟩ : GpuMemoryPool).used_memory + 10 ∧
      ((⟨100, 40⟩ : GpuMemoryPool).allocate 10).2.total_memory =
        (⟨100, 40⟩ : GpuMemoryPool).total_memory) ↔
        (⟨100, 40⟩ : GpuMemoryPool).used_memory + 10 ≤
          (⟨100, 40⟩ : GpuMemoryPool).total_memory) ∧
    ((⟨100, 40⟩ : GpuMemoryPool).total_memory <
        (⟨100, 40⟩ : GpuMemoryPool).used_memory + 10 →
      ((⟨100, 40⟩ : GpuMemoryPool).allocate 10).1 =
        Except.error (10, (⟨100, 40⟩ : GpuMemoryPool).total_memory -
          (⟨100, 40⟩ : GpuMemoryPool).used_memory) ∧
      ((⟨100, 40⟩ : GpuMemoryPool).allocate 10).2 = (⟨100, 40⟩ : GpuMemoryPool)) ∧
    (((GpuMemoryPool.new 100).allocate (100 + 1)).1 =
      Except.error (100 + 1, 100) ∧
      ((GpuMemoryPool.new 100).allocate (100 + 1)).2 = GpuMemoryPool.new 100) ∧
    (((GpuMemoryPool.new 100).allocate 100).1 = Except.ok () ∧
      ((GpuMemoryPool.new 100).allocate 100).2.available = 0)) :=
  ⟨by decide, by decide, allocate_spec ⟨100, 40⟩ 10 100 (by decide) (by decide)⟩

/-! ## Claim C9: the kernel launcher partitioning -/

/-- C9 as stated is false at the `usize` boundary: for
`W = 2^64 - 1 ≥ 1`, the wrapping computation of
`(total_work + block_size - 1) / block_size` yields `grid_size = 0`, so no
enumerated `(partition, offset)` pair maps to the global index `0 ∈ [0, W)`. -/
theorem launcher_cover_counterexample :
    (GpuKernelLauncher.new (2 ^ 64 - 1)).grid_size = 0 ∧
    ¬∃ p, p ∈ (GpuKernelLauncher.new (2 ^ 64 - 1)).launchPairs ∧
      p.1 * 256 + p.2 = 0 := by
  constructor
  · decide
  · have h : (GpuKernelLauncher.new (2 ^ 64 - 1)).grid_size = 0 := by decide
    rintro ⟨p, hp, -⟩
    rw [GpuKernelLauncher.launchPairs, h] at hp
    simp at hp

/-- C9 amended: for every total work count `W` with `1 ≤ W` and
`W + 256 ≤ 2^64` (no `usize` overflow in the ceiling computation), the
launcher has `grid_size = (W + 255) / 256 = ⌈W / 256⌉` partitions of fixed
unit 256, and the mapping `(partition, offset) ↦ partition*256 + offset`
assigns every global index in `[0, W)` to exactly one pair among those the
launcher enumerates. -/
theorem launcher_partition_cover (W : Nat) (h1 : 1 ≤ W) (h2 : W + 256 ≤ u64Mod) :
    (GpuKernelLauncher.new W).block_size = 256 ∧
    (GpuKernelLauncher.new W).grid_size = (W + 255) / 256 ∧
    W ≤ (GpuKernelLauncher.new W).grid_size * 256 ∧
    (GpuKernelLauncher.new W).grid_size * 256 < W + 256 ∧
    ∀ i, i < W → ∃! p : Nat × Nat,
      p ∈ (GpuKernelLauncher.new W).launchPairs ∧ p.1 * 256 + p.2 = i := by
  have hgrid : (GpuKernelLauncher.new W).grid_size = (W + 255) / 256 := by
    simp only [GpuKernelLauncher.new, u64Mod] at h2 ⊢
    omega
  have hblock : (GpuKernelLauncher.new W).block_size = 256 := rfl
  have hWle : W ≤ (W + 255) / 256 * 256 := by omega
  refine ⟨hblock, hgrid, by omega, by omega, ?_⟩
  intro i hi
  have hmem : ∀ p : Nat × Nat,
      (p ∈ (GpuKernelLauncher.new W).launchPairs ↔
        p.1 < (W + 255) / 256 ∧ p.2 < 256) := by
    intro p
    rw [GpuKernelLauncher.launchPairs, hgrid, hblock]
    simp only [List.mem_flatMap, List.mem_map, List.mem_range]
    constructor
    · rintro ⟨g, hg, b, hb, rfl⟩
      exact ⟨hg, hb⟩
    · rintro ⟨hg, hb⟩
      exact ⟨p.1, hg, p.2, hb, rfl⟩
  refine ⟨(i / 256, i % 256), ⟨?_, ?_⟩, ?_⟩
  · rw [hmem]
    constructor
    · simp only
      omega
    · simp only
      omega
  · simp only
    omega
  · rintro ⟨g, b⟩ ⟨hmem2, heq⟩
    rw [hmem] at hmem2
    simp only at hmem2 heq
    have : g = i / 256 ∧ b = i % 256 := by omega
    simp [this.1, this.2]

/-- Witness for C9 at `W = 300`. -/
theorem launcher_partition_cover_witness :
    (1 ≤ 300) ∧ (300 + 256 ≤ u64Mod) ∧
    ((GpuKernelLauncher.new 300).block_size = 256 ∧
      (GpuKernelLauncher.new 300).grid_size = (300 + 255) / 256 ∧
      300 ≤ (GpuKernelLauncher.new 300).grid_size * 256 ∧
      (GpuKernelLauncher.new 300).grid_size * 256 < 300 + 256 ∧
      ∀ i, i < 300 → ∃! p : Nat × Nat,
        p ∈ (GpuKernelLauncher.new 300).launchPairs ∧ p.1 * 256 + p.2 = i) :=
  ⟨by decide, by decide, launcher_partition_cover 300 (by decide) (by decide)⟩

/-! ## Claim C10: out-of-range measure_qubit silently returns 0 -/

theorem foldl_measure_no_bits {mask : Nat} :
    ∀ (l : List K) (j : Nat) (acc : K),
      (∀ i, i < j + l.length → i &&& mask = 0) →
      ((l.enumFrom j).foldl
        (fun prob ip => if ip.1 &&& mask != 0 then prob + ip.2 else prob) acc) = acc := by
  intro l
  induction l with
  | nil => intro j acc _; rfl
  | cons x t ih =>
    intro j acc h
    have hj : j &&& mask = 0 := h j (by simp)
    simp only [List.enumFrom_cons, List.foldl_cons, hj]
    rw [if_neg (by simp)]
    exact ih (j + 1) acc (fun i hi => h i (by simp at hi ⊢; omega))

/-- C10: for every simulator whose state vector has its constructed length
`2^num_qubits`, and every qubit index `q` with `num_qubits ≤ q < 64`,
`measure_qubit q` returns exactly `0` without failing: the mask `1 <<< q`
exceeds every basis index below `2^num_qubits`, so no probability entry is
selected and the out-of-range query is silently answered. -/
theorem measure_qubit_out_of_range (sim : QuantumSimulator ℝ) (q : Nat)
    (hlen : sim.state.data.length = 2 ^ sim.num_qubits)
    (hq1 : sim.num_qubits ≤ q) (hq2 : q < 64) :
    sim.measure_qubit q = 0 := by
  rw [QuantumSimulator.measure_qubit]
  simp only [List.enum]
  rw [shiftLeft_one]
  refine foldl_measure_no_bits _ 0 0 ?_
  intro i hi
  rw [and_two_pow_eq_zero_iff]
  refine Nat.testBit_lt_two_pow ?_
  have hlen2 : sim.measure_all.length = 2 ^ sim.num_qubits := by
    simp [QuantumSimulator.measure_all, GpuStateVector.measure_all_gpu, hlen]
  rw [hlen2] at hi
  calc i < 2 ^ sim.num_qubits := by omega
    _ ≤ 2 ^ q := Nat.pow_le_pow_right (by norm_num) hq1

/-! ## Pointwise characterization of the paired kernels -/

theorem getD_of_getElem? {A : Type} {l : List A} {i : Nat} {a x : A}
    (h : l[i]? = some a) : l.getD i x = a := by
  simp [List.getD_eq_getElem?_getD, h]

theorem testBit_or_two_pow_self (t q : Nat) : (t ||| 2 ^ q).testBit q = true := by
  simp [Nat.testBit_or, Nat.testBit_two_pow_self]

theorem pairBase_testBit_false (q r : Nat) : (pairBase q r).testBit q = false := by
  unfold pairBase
  by_cases h : r.testBit q
  · rw [if_pos h]
    exact xor_two_pow_testBit h
  · rw [if_neg h]
    simpa using h

theorem pairBase_lt {N q r : Nat} (hq : q < N) (hr : r < 2 ^ N) :
    pairBase q r < 2 ^ N := by
  unfold pairBase
  split
  · exact Nat.xor_lt_two_pow hr (Nat.pow_lt_pow_right (by norm_num) hq)
  · exact hr

theorem pairBase_eq_self {q t : Nat} (h : t.testBit q = false) :
    pairBase q t = t := by
  simp [pairBase, h]

theorem pairBase_or {q t : Nat} (h : t.testBit q = false) :
    pairBase q (t ||| 2 ^ q) = t := by
  simp [pairBase, testBit_or_two_pow_self, or_two_pow_xor h]

theorem pairBase_ne {q t r : Nat} (ht : t.testBit q = false)
    (h1 : r ≠ t) (h2 : r ≠ t ||| 2 ^ q) : pairBase q r ≠ t := by
  intro he
  unfold pairBase at he
  by_cases hb : r.testBit q
  · rw [if_pos hb] at he
    apply h2
    have hr : r = t ^^^ 2 ^ q := by
      have h3 := congrArg (fun x => x ^^^ 2 ^ q) he
      simpa [Nat.xor_assoc] using h3
    rw [hr, ← or_eq_xor_of_testBit_false ht]
  · rw [if_neg hb] at he
    exact h1 he

theorem pairLoop_invariant {q N : Nat} {g : Nat → Bool}
    {u : Complex K → Complex K → Complex K × Complex K}
    {d : List (Complex K)}
    (hg : ∀ i, g i = true → i.testBit q = false)
    (hlen : d.length = 2 ^ N) (hq : q < N) :
    ∀ t, t ≤ 2 ^ N → ∀ d2,
      (List.range t).foldlM (pairUpdate g (2 ^ q) u) d = some d2 →
      d2.length = d.length ∧ ∀ r, r < 2 ^ N →
        d2[r]? = if pairBase q r < t ∧ g (pairBase q r) = true
          then some (pairTarget q u d r) else d[r]? := by
  intro t
  induction t with
  | zero =>
    intro _ d2 h
    simp only [List.range_zero, List.foldlM_nil] at h
    cases h
    refine ⟨rfl, fun r _ => ?_⟩
    rw [if_neg (by rintro ⟨h1, -⟩; omega)]
  | succ t ih =>
    intro ht d2 h
    rw [List.range_succ, List.foldlM_append] at h
    cases hmid : (List.range t).foldlM (pairUpdate g (2 ^ q) u) d with
    | none =>
      rw [hmid] at h
      simp at h
    | some dmid =>
      rw [hmid] at h
      simp only [Option.bind_eq_bind, Option.some_bind, List.foldlM_cons,
        List.foldlM_nil] at h
      obtain ⟨hmlen, hmchar⟩ := ih (by omega) dmid hmid
      cases hup : pairUpdate g (2 ^ q) u dmid t with
      | none =>
        rw [hup] at h
        simp at h
      | some dfin =>
        rw [hup] at h
        simp only [Option.some_bind, Option.pure_def, Option.some_inj] at h
        subst h
        by_cases hgt : g t = true
        · -- the iteration fires and writes the pair (t, t ||| 2^q)
          have ht_bit : t.testBit q = false := hg t hgt
          have ht_lt : t < 2 ^ N := by omega
          have hor_lt : t ||| 2 ^ q < 2 ^ N := or_mask_lt hq ht_lt
          have hne_t : t ≠ t ||| 2 ^ q :=
            ne_or_of_and_eq_zero (by positivity)
              ((and_two_pow_eq_zero_iff t q).mpr ht_bit)
          have hmt : dmid[t]? = d[t]? := by
            rw [hmchar t ht_lt, if_neg ?_]
            rintro ⟨hlt, -⟩
            rw [pairBase_eq_self ht_bit] at hlt
            omega
          have hmor : dmid[t ||| 2 ^ q]? = d[t ||| 2 ^ q]? := by
            rw [hmchar _ hor_lt, if_neg ?_]
            rintro ⟨hlt, -⟩
            rw [pairBase_or ht_bit] at hlt
            omega
          obtain ⟨a, ha⟩ : ∃ a, d[t]? = some a :=
            ⟨_, List.getElem?_eq_getElem (by omega)⟩
          obtain ⟨b, hb⟩ : ∃ b, d[t ||| 2 ^ q]? = some b :=
            ⟨_, List.getElem?_eq_getElem (by omega)⟩
          unfold pairUpdate at hup
          rw [if_pos hgt] at hup
          rw [hmt, ha, hmor, hb] at hup
          simp only [Option.some_inj] at hup
          refine ⟨by rw [← hup]; simp [hmlen], fun r hr => ?_⟩
          by_cases hr_t : r = t
          · subst hr_t
            rw [if_pos ⟨by rw [pairBase_eq_self ht_bit]; omega,
              by rw [pairBase_eq_self ht_bit]; exact hgt⟩]
            rw [← hup]
            rw [List.getElem?_set_ne (Ne.symm hne_t),
              List.getElem?_set_eq_of_lt _ (by omega)]
            simp only [pairTarget, pairBase_eq_self ht_bit, ht_bit,
              getD_of_getElem? ha, getD_of_getElem? hb, Bool.false_eq_true,
              if_false]
          · by_cases hr_or : r = t ||| 2 ^ q
            · subst hr_or
              rw [if_pos ⟨by rw [pairBase_or ht_bit]; omega,
                by rw [pairBase_or ht_bit]; exact hgt⟩]
              rw [← hup]
              rw [List.getElem?_set_eq_of_lt _ (by simp; omega)]
              simp only [pairTarget, pairBase_or ht_bit,
                testBit_or_two_pow_self, getD_of_getElem? ha,
                getD_of_getElem? hb, if_true]
            · have huntouched : dfin[r]? = dmid[r]? := by
                rw [← hup]
                rw [List.getElem?_set_ne (fun he => hr_or he.symm),
                  List.getElem?_set_ne (fun he => hr_t he.symm)]
              rw [huntouched, hmchar r hr]
              have hnet : pairBase q r ≠ t := pairBase_ne ht_bit hr_t hr_or
              by_cases hG : g (pairBase q r) = true
              · by_cases hlt : pairBase q r < t
                · rw [if_pos ⟨hlt, hG⟩, if_pos ⟨by omega, hG⟩]
                · rw [if_neg (by rintro ⟨h1, -⟩; exact hlt h1),
                    if_neg (by rintro ⟨h1, -⟩; exact hlt (by omega))]
              · rw [if_neg (by rintro ⟨-, h2⟩; exact hG h2),
                  if_neg (by rintro ⟨-, h2⟩; exact hG h2)]
        · -- the iteration is a no-op here
          unfold pairUpdate at hup
          rw [if_neg hgt] at hup
          simp only [Option.some_inj] at hup
          subst hup
          refine ⟨hmlen, fun r hr => ?_⟩
          rw [hmchar r hr]
          by_cases hG : g (pairBase q r) = true
          · have hnet : pairBase q r ≠ t := by
              intro he
              rw [he] at hG
              exact hgt hG
            by_cases hlt : pairBase q r < t
            · rw [if_pos ⟨hlt, hG⟩, if_pos ⟨by omega, hG⟩]
            · rw [if_neg (by rintro ⟨h1, -⟩; exact hlt h1),
                if_neg (by rintro ⟨h1, -⟩; exact hlt (by omega))]
          · rw [if_neg (by rintro ⟨-, h2⟩; exact hG h2),
              if_neg (by rintro ⟨-, h2⟩; exact hG h2)]

theorem pairLoop_getElem {q N : Nat} {g : Nat → Bool}
    {u : Complex K → Complex K → Complex K × Complex K}
    {d d2 : List (Complex K)}
    (hg : ∀ i, g i = true → i.testBit q = false)
    (hlen : d.length = 2 ^ N) (hq : q < N)
    (h : pairLoop g (2 ^ q) u (2 ^ N) d = some d2) :
    d2.length = d.length ∧ ∀ r, r < 2 ^ N →
      d2[r]? = if g (pairBase q r) = true
        then some (pairTarget q u d r) else d[r]? := by
  obtain ⟨hl2, hchar⟩ := pairLoop_invariant hg hlen hq (2 ^ N) le_rfl d2 h
  refine ⟨hl2, fun r hr => ?_⟩
  rw [hchar r hr]
  have hblt := pairBase_lt hq hr
  by_cases hG : g (pairBase q r) = true
  · rw [if_pos ⟨hblt, hG⟩, if_pos hG]
  · rw [if_neg (by rintro ⟨-, h2⟩; exact hG h2), if_neg hG]

/-- Applying a pair kernel twice restores the amplitude list exactly,
whenever the pair update is an involution on pairs. -/
theorem pairLoop_twice_id {q N : Nat} {g : Nat → Bool}
    {u : Complex K → Complex K → Complex K × Complex K}
    {d d1 d2 : List (Complex K)}
    (hgiff : ∀ i, g i = true ↔ i.testBit q = false)
    (hq : q < N) (hlen : d.length = 2 ^ N)
    (huu : ∀ a b, u (u a b).1 (u a b).2 = (a, b))
    (h1 : pairLoop g (2 ^ q) u (2 ^ N) d = some d1)
    (h2 : pairLoop g (2 ^ q) u (2 ^ N) d1 = some d2) :
    d2 = d := by
  have hg : ∀ i, g i = true → i.testBit q = false := fun i => (hgiff i).mp
  obtain ⟨hl1, hc1⟩ := pairLoop_getElem hg hlen hq h1
  obtain ⟨hl2, hc2⟩ := pairLoop_getElem hg (hl1.trans hlen) hq h2
  refine List.ext_getElem? fun r => ?_
  by_cases hr : r < 2 ^ N
  · rw [hc2 r hr, if_pos ((hgiff _).mpr (pairBase_testBit_false q r))]
    have hpbit : (pairBase q r).testBit q = false := pairBase_testBit_false q r
    have hplt : pairBase q r < 2 ^ N := pairBase_lt hq hr
    have hpor_lt : pairBase q r ||| 2 ^ q < 2 ^ N := or_mask_lt hq hplt
    obtain ⟨a, ha⟩ : ∃ a, d[pairBase q r]? = some a :=
      ⟨_, List.getElem?_eq_getElem (by omega)⟩
    obtain ⟨b, hb⟩ : ∃ b, d[pairBase q r ||| 2 ^ q]? = some b :=
      ⟨_, List.getElem?_eq_getElem (by omega)⟩
    have hd1p : d1[pairBase q r]? = some (u a b).1 := by
      rw [hc1 _ hplt, if_pos (by
        rw [pairBase_eq_self hpbit]
        exact (hgiff _).mpr hpbit)]
      simp only [pairTarget, pairBase_eq_self hpbit, hpbit,
        getD_of_getElem? ha, getD_of_getElem? hb, Bool.false_eq_true, if_false]
    have hd1or : d1[pairBase q r ||| 2 ^ q]? = some (u a b).2 := by
      rw [hc1 _ hpor_lt, if_pos (by
        rw [pairBase_or hpbit]
        exact (hgiff _).mpr hpbit)]
      simp only [pairTarget, pairBase_or hpbit, testBit_or_two_pow_self,
        getD_of_getElem? ha, getD_of_getElem? hb, if_true]
    by_cases hrb : r.testBit q
    · have hpr : pairBase q r ||| 2 ^ q = r := by
        rw [show pairBase q r = r ^^^ 2 ^ q from by simp [pairBase, hrb]]
        exact xor_two_pow_or hrb
      simp only [pairTarget, getD_of_getElem? hd1p, getD_of_getElem? hd1or,
        hrb, if_true, huu]
      rw [← hb, hpr]
    · have hrb2 : r.testBit q = false := by simpa using hrb
      have hpr : pairBase q r = r := pairBase_eq_self hrb2
      simp only [pairTarget, getD_of_getElem? hd1p, getD_of_getElem? hd1or,
        hrb2, Bool.false_eq_true, if_false, huu]
      rw [← ha, hpr]
  · rw [List.getElem?_eq_none (by omega : d.length ≤ r),
      List.getElem?_eq_none (by
        rw [hl2, hl1]
        omega)]

/-! ## Claim C6: Hadamard and PauliX are self-inverse -/

/-- C6: for every state vector of the constructed shape (`size = 2^n`,
`2^n` amplitudes) and every in-range qubit `q`, applying the Hadamard
kernel twice succeeds and restores the probability of every basis index
exactly (indeed the amplitude list itself), and applying the PauliX kernel
twice succeeds and restores every amplitude exactly. -/
theorem hadamard_pauli_x_self_inverse (s : GpuStateVector ℝ) (n q : Nat)
    (hsz : s.size = 2 ^ n) (hlen : s.data.length = 2 ^ n) (hq : q < n) :
    (∃ s2, (s.apply_hadamard_gpu realFloatOps q).bind
        (fun s1 => s1.apply_hadamard_gpu realFloatOps q) = some s2 ∧
      s2.data.map Complex.magnitude_squared =
        s.data.map Complex.magnitude_squared) ∧
    (∃ s2, (s.apply_x_gpu q).bind (fun s1 => s1.apply_x_gpu q) = some s2 ∧
      s2.data = s.data) := by
  have hgiff : ∀ i : Nat, (i &&& (2 ^ q) == 0) = true ↔ i.testBit q = false := by
    intro i
    rw [beq_iff_eq]
    exact and_two_pow_eq_zero_iff i q
  have hsome : ∀ (u : Complex ℝ → Complex ℝ → Complex ℝ × Complex ℝ)
      (x : List (Complex ℝ)), x.length = 2 ^ n →
      ∃ y, pairLoop (fun i => i &&& 2 ^ q == 0) (2 ^ q) u (2 ^ n) x = some y ∧
        y.length = 2 ^ n := by
    intro u x hx
    obtain ⟨y, hy, hyl⟩ := pairLoop_some (u := u)
      (by omega : 2 ^ n ≤ x.length)
      (fun i hi _ => by rw [hx]; exact or_mask_lt hq hi)
    exact ⟨y, hy, by omega⟩
  constructor
  · -- Hadamard twice
    have happ : ∀ x : GpuStateVector ℝ, x.size = 2 ^ n →
        x.apply_hadamard_gpu realFloatOps q =
          (pairLoop (fun i => i &&& 2 ^ q == 0) (2 ^ q)
            (fun a b =>
              (⟨realFloatOps.sqrt2inv * (a.re + b.re),
                realFloatOps.sqrt2inv * (a.im + b.im)⟩,
               ⟨realFloatOps.sqrt2inv * (a.re - b.re),
                realFloatOps.sqrt2inv * (a.im - b.im)⟩))
            (2 ^ n) x.data).map (fun d => ⟨x.size, d⟩) := by
      intro x hx
      simp only [GpuStateVector.apply_hadamard_gpu, shiftLeft_one, hx]
    obtain ⟨d1, hd1, hl1⟩ := hsome (fun a b =>
      (⟨realFloatOps.sqrt2inv * (a.re + b.re),
        realFloatOps.sqrt2inv * (a.im + b.im)⟩,
       ⟨realFloatOps.sqrt2inv * (a.re - b.re),
        realFloatOps.sqrt2inv * (a.im - b.im)⟩)) s.data hlen
    obtain ⟨d2, hd2, hl2⟩ := hsome (fun a b =>
      (⟨realFloatOps.sqrt2inv * (a.re + b.re),
        realFloatOps.sqrt2inv * (a.im + b.im)⟩,
       ⟨realFloatOps.sqrt2inv * (a.re - b.re),
        realFloatOps.sqrt2inv * (a.im - b.im)⟩)) d1 hl1
    have hid : d2 = s.data := by
      refine pairLoop_twice_id hgiff hq hlen ?_ hd1 hd2
      intro a b
      have hf : realFloatOps.sqrt2inv * realFloatOps.sqrt2inv * 2 = 1 :=
        realFloatOps_unitary.2
      cases a with
      | mk ar ai =>
        cases b with
        | mk br bi =>
          simp only [Prod.mk.injEq, Complex.mk.injEq]
          refine ⟨⟨?_, ?_⟩, ?_, ?_⟩
          · linear_combination ar * hf
          · linear_combination ai * hf
          · linear_combination br * hf
          · linear_combination bi * hf
    refine ⟨⟨s.size, d2⟩, ?_, by rw [hid]⟩
    rw [happ s hsz, hd1]
    simp only [Option.map_some', Option.some_bind]
    rw [happ ⟨s.size, d1⟩ hsz, hd2]
    rfl
  · -- PauliX twice
    have happ : ∀ x : GpuStateVector ℝ, x.size = 2 ^ n →
        x.apply_x_gpu q =
          (pairLoop (fun i => i &&& 2 ^ q == 0) (2 ^ q)
            (fun a b => ((b, a) : Complex ℝ × Complex ℝ))
            (2 ^ n) x.data).map (fun d => ⟨x.size, d⟩) := by
      intro x hx
      simp only [GpuStateVector.apply_x_gpu, shiftLeft_one, hx]
    obtain ⟨d1, hd1, hl1⟩ :=
      hsome (fun a b => ((b, a) : Complex ℝ × Complex ℝ)) s.data hlen
    obtain ⟨d2, hd2, hl2⟩ :=
      hsome (fun a b => ((b, a) : Complex ℝ × Complex ℝ)) d1 hl1
    have hid : d2 = s.data := by
      refine pairLoop_twice_id hgiff hq hlen ?_ hd1 hd2
      intro a b
      rfl
    refine ⟨⟨s.size, d2⟩, ?_, hid⟩
    rw [happ s hsz, hd1]
    simp only [Option.map_some', Option.some_bind]
    rw [happ ⟨s.size, d1⟩ hsz, hd2]
    rfl

/-- Witness for C6: the fresh 1-qubit state vector at qubit 0. -/
theorem hadamard_pauli_x_self_inverse_witness :
    ((GpuStateVector.new 1 : GpuStateVector ℝ).size = 2 ^ 1) ∧
    ((GpuStateVector.new 1 : GpuStateVector ℝ).data.length = 2 ^ 1) ∧
    ((0 : Nat) < 1) ∧
    ((∃ s2, ((GpuStateVector.new 1 : GpuStateVector ℝ).apply_hadamard_gpu
          realFloatOps 0).bind
        (fun s1 => s1.apply_hadamard_gpu realFloatOps 0) = some s2 ∧
      s2.data.map Complex.magnitude_squared =
        (GpuStateVector.new 1 : GpuStateVector ℝ).data.map
          Complex.magnitude_squared) ∧
    (∃ s2, ((GpuStateVector.new 1 : GpuStateVector ℝ).apply_x_gpu 0).bind
        (fun s1 => s1.apply_x_gpu 0) = some s2 ∧
      s2.data = (GpuStateVector.new 1 : GpuStateVector ℝ).data)) :=
  ⟨rfl, rfl, by decide,
    hadamard_pauli_x_self_inverse (GpuStateVector.new 1) 1 0 rfl rfl (by decide)⟩

/-! ## Claim C1: behavior of apply_gate on out-of-range qubit indices -/

/-- C1, evaluated at the failing input: `apply_gate` performs no range
validation.  On a 1-qubit simulator, `Hadamard 1` indexes `data[2]` on the
length-2 amplitude vector — a Rust out-of-bounds panic, modelled `none` —
rather than returning an `OutOfRange` error, while `PauliZ 1` silently
succeeds without touching the state (its g never fires) rather than
failing.  No `OutOfRangeError` exists anywhere in the code. -/
theorem apply_gate_out_of_range_behavior :
    (QuantumSimulator.new 1 : QuantumSimulator ℝ).apply_gate realFloatOps
      (QuantumGate.Hadamard 1) = none ∧
    (QuantumSimulator.new 1 : QuantumSimulator ℝ).apply_gate realFloatOps
      (QuantumGate.PauliZ 1) = some (QuantumSimulator.new 1) := by
  exact ⟨rfl, rfl⟩

/-! ## Claim C3: the Bell circuit yields [0.5, 0, 0, 0.5] -/

/-- C3: a simulator created with 2 qubits, after applying the Bell circuit
gates Hadamard(0) then CNOT(0, 1), returns from `measure_all` the
probability sequence `[1/2, 0, 0, 1/2]` exactly (over the reals). -/
theorem bell_state_measure_all :
    (applyGates realFloatOps (create_bell_state (K := ℝ)).gates
        (QuantumSimulator.new 2)).map (fun sim => sim.measure_all) =
      some [1 / 2, 0, 0, 1 / 2] := by
  have h1 : applyGates realFloatOps (create_bell_state (K := ℝ)).gates
      (QuantumSimulator.new 2) =
      some ⟨2, ⟨4,
        [⟨realFloatOps.sqrt2inv * (1 + 0), realFloatOps.sqrt2inv * (0 + 0)⟩,
         ⟨realFloatOps.sqrt2inv * (0 - 0), realFloatOps.sqrt2inv * (0 - 0)⟩,
         ⟨realFloatOps.sqrt2inv * (0 + 0), realFloatOps.sqrt2inv * (0 + 0)⟩,
         ⟨realFloatOps.sqrt2inv * (1 - 0), realFloatOps.sqrt2inv * (0 - 0)⟩]⟩⟩ := rfl
  rw [h1]
  simp only [Option.map_some', QuantumSimulator.measure_all,
    GpuStateVector.measure_all_gpu, List.map_cons, List.map_nil,
    magnitude_squared_def, Option.some.injEq, realFloatOps]
  have hs : Real.sqrt 2 * Real.sqrt 2 = 2 := Real.mul_self_sqrt (by norm_num)
  have hne : Real.sqrt 2 ≠ 0 := by
    intro h
    rw [h] at hs
    norm_num at hs
  refine List.cons_eq_cons.mpr ⟨?_, List.cons_eq_cons.mpr ⟨by ring,
    List.cons_eq_cons.mpr ⟨by ring, List.cons_eq_cons.mpr ⟨?_, rfl⟩⟩⟩⟩
  · field_simp
  · field_simp

/-! ## Claim C4: the optimizer is the described single pass -/

theorem cancelsNext_of_getElem {A : Type} {gates : List (QuantumGate A)}
    {i : Nat} {h : QuantumGate A} (g : QuantumGate A)
    (hh : gates[i+1]? = some h) :
    cancelsNext gates i g = specCancelPair g h := by
  cases g <;> cases h <;> simp [cancelsNext, specCancelPair, hh]

theorem cancelsNext_of_getElem_none {A : Type} {gates : List (QuantumGate A)}
    {i : Nat} (g : QuantumGate A) (hh : gates[i+1]? = none) :
    cancelsNext gates i g = false := by
  cases g <;> simp [cancelsNext, hh]

theorem drop_cons_succ {A : Type} {L : List A} {i : Nat} {x : A} {xs : List A}
    (h : L.drop i = x :: xs) : L.drop (i + 1) = xs := by
  have h2 : (L.drop i).drop 1 = L.drop (i + 1) := List.drop_drop 1 i L
  rw [h] at h2
  simpa using h2.symm

theorem optimize_go {A : Type} (gates : List (QuantumGate A)) :
    ∀ (fuel : Nat) (l : List (QuantumGate A)), l.length ≤ fuel →
      ∀ (i : Nat) (acc : List (QuantumGate A)), gates.drop i = l →
      ((l.enumFrom i).foldl (optimizeStep gates) (false, acc)).2 =
        acc ++ specSinglePass l := by
  intro fuel
  induction fuel with
  | zero =>
    intro l hl i acc hdrop
    have : l = [] := List.eq_nil_of_length_eq_zero (by omega)
    subst this
    simp [specSinglePass]
  | succ f ih =>
    intro l hl i acc hdrop
    match l with
    | [] => simp [specSinglePass]
    | [g] =>
      have hlen : gates.length = i + 1 := by
        have h2 := congrArg List.length hdrop
        simp only [List.length_drop, List.length_cons, List.length_nil] at h2
        have h3 : i ≤ gates.length := by
          by_contra hlt
          rw [List.drop_eq_nil_of_le (by omega)] at hdrop
          cases hdrop
        omega
      have hnone : gates[i+1]? = none := List.getElem?_eq_none (by omega)
      simp only [List.enumFrom_cons, List.enumFrom_nil, List.foldl_cons,
        List.foldl_nil, optimizeStep, Bool.false_eq_true, if_false,
        cancelsNext_of_getElem_none g hnone, specSinglePass]
    | g :: h :: t =>
      have hh : gates[i+1]? = some h := by
        have h2 : (gates.drop i)[1]? = some h := by rw [hdrop]; simp
        rw [List.getElem?_drop] at h2
        exact h2
      have hdrop1 : gates.drop (i + 1) = h :: t := drop_cons_succ hdrop
      have hdrop2 : gates.drop (i + 2) = t := drop_cons_succ hdrop1
      simp only [List.length_cons] at hl
      rw [List.enumFrom_cons, List.foldl_cons]
      have hstep1 : optimizeStep gates (false, acc) (i, g) =
          if specCancelPair g h = true then (true, acc) else (false, acc ++ [g]) := by
        simp [optimizeStep, cancelsNext_of_getElem g hh]
      by_cases hc : specCancelPair g h = true
      · rw [hstep1, if_pos hc]
        rw [List.enumFrom_cons, List.foldl_cons]
        have hstep2 : optimizeStep gates (true, acc) (i + 1, h) = (false, acc) := by
          simp [optimizeStep]
        rw [hstep2]
        rw [ih t (by omega) (i + 2) acc hdrop2]
        simp [specSinglePass, hc]
      · rw [hstep1, if_neg hc]
        rw [ih (h :: t) (by simp; omega) (i + 1) (acc ++ [g]) hdrop1]
        simp [specSinglePass, hc]

/-- C4: `optimize` performs exactly the single left-to-right pass described
by the spec — drop the current and next gate exactly when both are Hadamard
on the same qubit or both PauliX on the same qubit, then advance past both,
otherwise keep the current gate (`specSinglePass`); the pass preserves
`num_qubits`.  Concretely: `[H 0, H 0]` optimizes to `[]`,
`[X 1, X 1, H 0]` optimizes to `[H 0]`, and in `[X 0, H 0, H 0, X 0]` the
inner Hadamard pair cancels but the freshly adjacent PauliX pair is not
re-examined (single pass, not a fixpoint). -/
theorem optimize_single_pass :
    (∀ (A : Type) (c : QuantumCircuit A),
      optimize c = ⟨c.num_qubits, specSinglePass c.gates⟩) ∧
    optimize (⟨1, [QuantumGate.Hadamard 0, QuantumGate.Hadamard 0]⟩ :
        QuantumCircuit ℝ) = ⟨1, []⟩ ∧
    optimize (⟨2, [QuantumGate.PauliX 1, QuantumGate.PauliX 1,
        QuantumGate.Hadamard 0]⟩ : QuantumCircuit ℝ) =
      ⟨2, [QuantumGate.Hadamard 0]⟩ ∧
    optimize (⟨1, [QuantumGate.PauliX 0, QuantumGate.Hadamard 0,
        QuantumGate.Hadamard 0, QuantumGate.PauliX 0]⟩ : QuantumCircuit ℝ) =
      ⟨1, [QuantumGate.PauliX 0, QuantumGate.PauliX 0]⟩ := by
  refine ⟨?_, rfl, rfl, rfl⟩
  intro A c
  have h := optimize_go c.gates c.gates.length c.gates le_rfl 0 [] (by simp)
  rw [optimize]
  rw [show c.gates.enum = c.gates.enumFrom 0 from rfl, h]
  rfl

/-- Witness for C10: a 1-qubit simulator queried at qubit 1 answers 0. -/
theorem measure_qubit_out_of_range_witness :
    ((QuantumSimulator.new 1 : QuantumSimulator ℝ).state.data.length =
      2 ^ (QuantumSimulator.new 1 : QuantumSimulator ℝ).num_qubits) ∧
    ((QuantumSimulator.new 1 : QuantumSimulator ℝ).num_qubits ≤ 1) ∧
    ((1 : Nat) < 64) ∧
    (QuantumSimulator.new 1 : QuantumSimulator ℝ).measure_qubit 1 = 0 :=
  ⟨rfl, by decide, by decide,
    measure_qubit_out_of_range (QuantumSimulator.new 1) 1 rfl (by decide) (by decide)⟩

end QuantumMesh
